import Mathlib

/-!
Verification development for the tender-bender document ingestion and
incremental semantic-extraction pipeline.

The definitions below are a shallow embedding of the Python sources:

* `src/src/agents/tender_llm_extractor.py` (accumulation/merge engine),
* `src/src/utils/helpers.py` (token-budget chunker, schema skeleton),
* `src/src/documents_parser.py` (document ingestor and format parsers),
* `src/src/utils/file_utils.py` (file classifier),
* `src/src/tender_pipeline.py` (pipeline stage handling),
* `src/src/models/unified_tender.py` (unified tender record).

Python dynamic values are modelled by the inductive type `Value`; Python
dicts by insertion-ordered association lists; Python exceptions by
`Except`.  Numbers are modelled by rationals (the code only ever compares
them with `>`); external collaborators (HTTP client, PyMuPDF, python-docx,
pandas, LibreOffice, the tokenizer) are modelled as explicit environment
parameters.
-/

/-! ## Python-style values and dictionaries -/

/-- A Python runtime value as it occurs in decoded LLM JSON output and in
the running aggregate: `None`, booleans, numbers, strings, lists and
dicts. -/
inductive Value where
  | vnull : Value
  | vbool (b : Bool) : Value
  | vnum (q : ℚ) : Value
  | vstr (s : String) : Value
  | vlist (xs : List Value) : Value
  | vdict (d : List (String × Value)) : Value

/-- Python dicts are insertion ordered; we model them as association
lists whose entry order is the insertion order. -/
abbrev PyDict := List (String × Value)

/-- Python exceptions that the merge code can raise. -/
inductive PyErr where
  | typeError : PyErr
  | attributeError : PyErr
deriving DecidableEq

/-- Dict lookup: `d[k]` / `d.get(k)` (first matching key). -/
def dget (d : PyDict) (k : String) : Option Value :=
  match d with
  | [] => none
  | (k', v) :: rest => if k' == k then some v else dget rest k

/-- Dict lookup with default: `d.get(k, default)`. -/
def dgetD (d : PyDict) (k : String) (dflt : Value) : Value :=
  (dget d k).getD dflt

/-- Dict assignment `d[k] = v`: replaces the value in place if the key is
present (keeping its position, as Python dicts do), otherwise appends. -/
def dset (d : PyDict) (k : String) (v : Value) : PyDict :=
  match d with
  | [] => [(k, v)]
  | (k', v') :: rest => if k' == k then (k, v) :: rest else (k', v') :: dset rest k v

/-- Python truthiness of a value. -/
def pyTruthy : Value → Bool
  | .vnull => false
  | .vbool b => b
  | .vnum q => q != 0
  | .vstr s => s != ""
  | .vlist xs => !xs.isEmpty
  | .vdict d => !d.isEmpty

/-- A value is hashable in Python exactly when it is not a list or dict
(tuples do not occur in decoded JSON). -/
def hashable : Value → Bool
  | .vlist _ => false
  | .vdict _ => false
  | _ => true

/-- Canonical key used to decide Python equality `==` of hashable atoms:
booleans compare as the numbers 0 and 1 (`True == 1` in Python). -/
def atomKey : Value → Option (ℚ ⊕ String ⊕ Unit)
  | .vnull => some (.inr (.inr ()))
  | .vbool b => some (.inl (if b then 1 else 0))
  | .vnum q => some (.inl q)
  | .vstr s => some (.inr (.inl s))
  | _ => none

/-- Python equality `==` restricted to hashable atoms (the only case the
merge code uses it in, inside `set()`); returns `false` on containers. -/
def pyEqAtom (a b : Value) : Bool :=
  match atomKey a, atomKey b with
  | some x, some y => decide (x = y)
  | _, _ => false

/-- Membership of an atom in a list up to Python equality. -/
def memBy (a : Value) (l : List Value) : Bool :=
  l.any (fun y => pyEqAtom a y)

/-- Deduplication keeping the first occurrence of each `==`-class.
`list(set(xs))` in Python iterates the set in an unspecified order; we fix
insertion order as the canonical choice, and state theorems about the
result through `memBy`, which is order independent. -/
def pySetList (l : List Value) : List Value :=
  go [] l
where
  /-- Walk the list, skipping elements already seen up to `==`. -/
  go (seen : List Value) : List Value → List Value
    | [] => []
    | x :: xs =>
        if seen.any (fun y => pyEqAtom y x) then go seen xs
        else x :: go (x :: seen) xs

/-- Shallow dict merge `existing.update(new)`: overlapping keys are
overwritten in place, new keys are appended in order. -/
def pyUpdate (existing new : PyDict) : PyDict :=
  new.foldl (fun d p => dset d p.1 p.2) existing

/-- Python `repr` of a value (`str` falls back to this on non-strings).
Float formatting is approximated by rational formatting; the development
only ever relies on the rendering of strings and integers. -/
def pyRepr : Value → String
  | .vnull => "None"
  | .vbool b => if b then "True" else "False"
  | .vnum q => if q.den == 1 then toString q.num else toString q
  | .vstr s => "\x27" ++ s ++ "\x27"
  | .vlist xs => "[" ++ String.intercalate ", " (xs.attach.map (fun x => pyRepr x.1)) ++ "]"
  | .vdict d =>
      "\x7b" ++
        String.intercalate ", "
          (d.attach.map (fun p => "\x27" ++ p.1.1 ++ "\x27: " ++ pyRepr p.1.2)) ++
      "\x7d"
decreasing_by
  all_goals simp_wf
  all_goals first
    | (have hx := List.sizeOf_lt_of_mem x.2
       omega)
    | (have h1 := List.sizeOf_lt_of_mem p.2
       have h2 : sizeOf (p.1).2 < sizeOf p.1 := by
         obtain ⟨⟨a, b⟩, hq⟩ := p
         simp
         try omega
       omega)

/-- Python `str()` of a value. -/
def pyStr : Value → String
  | .vstr s => s
  | v => pyRepr v

/-- Python `a > b` on the values the confidence comparison can see:
defined for numbers (booleans count as 0/1) and string pairs, a
`TypeError` otherwise (in particular when one side is `None`). -/
def pyGt : Value → Value → Except PyErr Bool
  | .vnum a, .vnum b => .ok (decide (b < a))
  | .vnum a, .vbool b => .ok (decide ((if b then (1 : ℚ) else 0) < a))
  | .vbool a, .vnum b => .ok (decide (b < (if a then (1 : ℚ) else 0)))
  | .vbool a, .vbool b => .ok (decide ((if b then (1 : ℚ) else 0) < (if a then 1 else 0)))
  | .vstr a, .vstr b => .ok (decide (b < a))
  | _, _ => .error .typeError

/-! ## Accumulation engine (`tender_llm_extractor.py`) -/

/-- The constant field name both confidence lookups use. -/
def confidence_key : String := "extraction_confidence_score"

/-- `is_higher_confidence(new_data, existing_data)` from
`tender_llm_extractor.py`: reads `extraction_confidence_score` on both
dicts, defaulting to `0.0` when the key is absent, and compares with `>`.
A present-but-`None` score raises a `TypeError`, which the embedding
returns as an error. -/
def is_higher_confidence (new_data existing_data : PyDict) : Except PyErr Bool :=
  pyGt (dgetD new_data confidence_key (.vnum 0)) (dgetD existing_data confidence_key (.vnum 0))

/-- One iteration of the merge loop of `BaseLLMProcessor._accumulate_data`
for the fragment entry `(k, v)`; `new_data` is the whole fragment (the
confidence rule reads it), `acc` the current aggregate. -/
def mergeStep (new_data : PyDict) (acc : PyDict) (k : String) (v : Value) :
    Except PyErr PyDict :=
  match v with
  | .vlist items =>
      -- existing = accumulated.get(key, []); accumulated[key] = list(set(existing + value))
      match dgetD acc k (.vlist []) with
      | .vlist existing =>
          let combined := existing ++ items
          if combined.all hashable then .ok (dset acc k (.vlist (pySetList combined)))
          else .error .typeError          -- set() over an unhashable element
      | _ => .error .typeError            -- existing + value on a non-list
  | .vdict items =>
      -- existing = accumulated.get(key, {}); None check, else existing.update(value)
      match dgetD acc k (.vdict []) with
      | .vnull => .ok (dset acc k (.vdict items))
      | .vdict existing => .ok (dset acc k (.vdict (pyUpdate existing items)))
      | _ => .error .attributeError       -- .update on a non-dict
  | .vbool b =>
      -- accumulated[key] = accumulated.get(key, False) or value
      let e := dgetD acc k (.vbool false)
      .ok (dset acc k (if pyTruthy e then e else .vbool b))
  | .vnull => .ok acc                     -- value is None: skipped
  | .vstr s =>
      if s == "" then .ok acc             -- value == "": skipped
      else mergeScalar new_data acc k (.vstr s)
  | .vnum q => mergeScalar new_data acc k (.vnum q)
where
  /-- The scalar branch: replace when the existing value is `None`, or the
  new value is a string strictly longer than `str(existing)`, or the
  fragment has strictly higher confidence (evaluated in Python
  short-circuit order). -/
  mergeScalar (new_data : PyDict) (acc : PyDict) (k : String) (v : Value) :
      Except PyErr PyDict :=
    match dgetD acc k .vnull with
    | .vnull => .ok (dset acc k v)
    | existing =>
        let lenCond :=
          match v with
          | .vstr s => decide ((pyStr existing).length < s.length)
          | _ => false
        if lenCond then .ok (dset acc k v)
        else do
          let hc ← is_higher_confidence new_data acc
          .ok (if hc then dset acc k v else acc)

/-- The loop of `_accumulate_data` over the remaining fragment items. -/
def accumulateAux (new_data : PyDict) : PyDict → PyDict → Except PyErr PyDict
  | [], acc => .ok acc
  | (k, v) :: rest, acc => do
      let acc2 ← mergeStep new_data acc k v
      accumulateAux new_data rest acc2

/-- `BaseLLMProcessor._accumulate_data(new_data, accumulated)`: folds every
fragment entry into the aggregate and returns the aggregate. -/
def accumulate_data (new_data accumulated : PyDict) : Except PyErr PyDict :=
  accumulateAux new_data new_data accumulated

/-- One iteration of the inline merge loop inside
`BaseLLMProcessor._extract_from_documents` (lines 546-568), translated on
its own from that code block. -/
def inlineMergeStep (new_data : PyDict) (accumulated : PyDict) (k : String) (v : Value) :
    Except PyErr PyDict :=
  match v with
  | .vlist items =>
      match dgetD accumulated k (.vlist []) with
      | .vlist existing =>
          let combined := existing ++ items
          if combined.all hashable then .ok (dset accumulated k (.vlist (pySetList combined)))
          else .error .typeError
      | _ => .error .typeError
  | .vdict items =>
      match dgetD accumulated k (.vdict []) with
      | .vnull => .ok (dset accumulated k (.vdict items))
      | .vdict existing => .ok (dset accumulated k (.vdict (pyUpdate existing items)))
      | _ => .error .attributeError
  | .vbool b =>
      let e := dgetD accumulated k (.vbool false)
      .ok (dset accumulated k (if pyTruthy e then e else .vbool b))
  | .vnull => .ok accumulated
  | .vstr s =>
      if s == "" then .ok accumulated
      else inlineScalar new_data accumulated k (.vstr s)
  | .vnum q => inlineScalar new_data accumulated k (.vnum q)
where
  /-- Scalar branch of the inline loop. -/
  inlineScalar (new_data : PyDict) (accumulated : PyDict) (k : String) (v : Value) :
      Except PyErr PyDict :=
    match dgetD accumulated k .vnull with
    | .vnull => .ok (dset accumulated k v)
    | existing =>
        let lenCond :=
          match v with
          | .vstr s => decide ((pyStr existing).length < s.length)
          | _ => false
        if lenCond then .ok (dset accumulated k v)
        else do
          let hc ← is_higher_confidence new_data accumulated
          .ok (if hc then dset accumulated k v else accumulated)

/-- The inline per-chunk merge loop of `_extract_from_documents` over the
remaining decoded items. -/
def inlineMergeAux (new_data : PyDict) : PyDict → PyDict → Except PyErr PyDict
  | [], accumulated => .ok accumulated
  | (k, v) :: rest, accumulated => do
      let acc2 ← inlineMergeStep new_data accumulated k v
      inlineMergeAux new_data rest acc2

/-- The whole inline merge of one decoded chunk reply into the aggregate,
as executed inside the chunk loop of `_extract_from_documents`. -/
def inlineChunkMerge (new_data accumulated : PyDict) : Except PyErr PyDict :=
  inlineMergeAux new_data new_data accumulated

/-! ## Schema skeleton (`helpers.empty_dict_from_dataclass`) -/

/-- The field kinds `empty_dict_from_dataclass` distinguishes after
unwrapping `Optional`: a nested dataclass, a list, a dict, a bool, and
everything else (scalars). -/
inductive FieldKind where
  | nested (fs : List (String × FieldKind)) : FieldKind
  | listOf : FieldKind
  | mapping : FieldKind
  | boolean : FieldKind
  | scalar : FieldKind

/-- The default empty value for one field, in the source's check order:
dataclass (recursively a skeleton dict), list, dict, bool, else `None`. -/
def emptyValue : FieldKind → Value
  | .nested fs => .vdict (fs.attach.map (fun p => (p.1.1, emptyValue p.1.2)))
  | .listOf => .vlist []
  | .mapping => .vdict []
  | .boolean => .vbool false
  | .scalar => .vnull
decreasing_by
  all_goals simp_wf
  have h1 := List.sizeOf_lt_of_mem p.2
  have h2 : sizeOf (p.1).2 < sizeOf p.1 := by
    obtain ⟨⟨a, b⟩, hq⟩ := p
    simp
    try omega
  omega

/-- `helpers.empty_dict_from_dataclass`: the all-empty skeleton dict of a
dataclass shape, one default entry per field. -/
def empty_dict_from_dataclass (fs : List (String × FieldKind)) : PyDict :=
  fs.map (fun p => (p.1, emptyValue p.2))

/-! ## Token-budget chunker (`helpers.chunk_text_for_user_prompt`)

The tokenizer returned by `get_tokenizer_for_model(m_config.MODEL)` is an
external collaborator; it is modelled as an explicit parameter
`tok : String → Nat` standing for `text ↦ len(tokenizer.encode(text))`.
-/

/-- Characters stripped by Python `str.strip()` with no arguments. -/
def pyWhitespaceChar (c : Char) : Bool :=
  c == ' ' || c == '\t' || c == '\n' || c == '\r' || c == '\x0b' || c == '\x0c'

/-- Python `str.strip()`: drop whitespace from both ends. -/
def pyStrip (s : String) : String :=
  String.mk (((s.data.dropWhile pyWhitespaceChar).reverse.dropWhile pyWhitespaceChar).reverse)

/-- Python `str.split("\n\n")` on the character list: greedy left-to-right
non-overlapping matches of the two-newline separator, keeping empty
pieces. -/
def splitBlankChars : List Char → List (List Char)
  | '\n' :: '\n' :: rest => [] :: splitBlankChars rest
  | c :: rest =>
      match splitBlankChars rest with
      | [] => [[c]]
      | piece :: pieces => (c :: piece) :: pieces
  | [] => [[]]

/-- `full_text.split("\n\n")` as used by the chunker. -/
def splitParagraphs (s : String) : List String :=
  (splitBlankChars s.data).map String.mk

/-- `helpers.count_tokens(text, tokenizer)`. -/
def count_tokens (text : String) (tok : String → Nat) : Nat :=
  tok text

/-- The paragraph-packing loop of `chunk_text_for_user_prompt`, carrying
the flushed chunks, the open chunk and its running token count. -/
def chunkLoopGo (tok : String → Nat) (maxAvail : Int) (chunks : List String)
    (current : String) (count : Nat) : List String → List String
  | [] => if current != "" then chunks ++ [pyStrip current] else chunks
  | para :: rest =>
      let para_tokens := tok para
      if decide (maxAvail < ((count + para_tokens : Nat) : Int)) && current != "" then
        chunkLoopGo tok maxAvail (chunks ++ [pyStrip current]) para para_tokens rest
      else
        chunkLoopGo tok maxAvail chunks (current ++ "\n\n" ++ para) (count + para_tokens) rest

/-- The exception message of the capacity check. -/
def capacityError : String := "Not enough room for document text. Try shortening your prompt."

/-- Model configuration fields the chunker reads. -/
structure ModelConfig where
  MODEL : String
  CONTEXT_WINDOW : Int
  RESPONSE_TOKENS : Int

/-- `helpers.chunk_text_for_user_prompt`: computes the available token
budget, raises a `ValueError` when it is not positive, and otherwise
greedily packs blank-line-separated paragraphs into chunks. -/
def chunk_text_for_user_prompt (tok : String → Nat) (m_config : ModelConfig)
    (system_prompt user_prompt_template full_text : String) :
    Except String (List String) :=
  let system_tokens := count_tokens system_prompt tok
  let draft_user_prompt_tokens := count_tokens user_prompt_template tok
  let response_tokens := m_config.RESPONSE_TOKENS
  let context_limit := m_config.CONTEXT_WINDOW
  let max_available_tokens : Int :=
    context_limit - system_tokens - response_tokens - draft_user_prompt_tokens
  if max_available_tokens ≤ 0 then .error capacityError
  else
    let paragraphs := splitParagraphs full_text
    .ok (chunkLoopGo tok max_available_tokens [] "" 0 paragraphs)

/-- Ghost-instrumented version of the packing loop that also records, for
every flushed chunk, the running token count it was flushed with (the sum
of its paragraphs' token counts as tracked by the source). -/
def chunkLoopCountsGo (tok : String → Nat) (maxAvail : Int) (chunks : List (String × Nat))
    (current : String) (count : Nat) : List String → List (String × Nat)
  | [] => if current != "" then chunks ++ [(pyStrip current, count)] else chunks
  | para :: rest =>
      let para_tokens := tok para
      if decide (maxAvail < ((count + para_tokens : Nat) : Int)) && current != "" then
        chunkLoopCountsGo tok maxAvail (chunks ++ [(pyStrip current, count)]) para para_tokens rest
      else
        chunkLoopCountsGo tok maxAvail chunks (current ++ "\n\n" ++ para) (count + para_tokens) rest

/-! ## File classifier (`file_utils.py`) -/

/-- `FileType` from `file_utils.py`. -/
inductive FileType where
  | PDF | DOCX | DOC | EXCEL | CSV | ZIP | HTML | TEXT | UNSUPPORTED
deriving DecidableEq

/-- Lower-case a string (ASCII, as the extensions at hand are). -/
def pyLower (s : String) : String :=
  String.mk (s.data.map Char.toLower)

/-- Does the string contain the character? -/
def strContains (s : String) (c : Char) : Bool :=
  s.data.contains c

/-- Python `s.startswith(p)`. -/
def strStartsWith (s p : String) : Bool :=
  p.data.isPrefixOf s.data

/-- Python `s.endswith(p)`. -/
def strEndsWith (s p : String) : Bool :=
  p.data.reverse.isPrefixOf s.data.reverse

/-- The extension part of `os.path.splitext` on the characters after the
last path separator: the suffix from the last dot, unless every character
before that dot belongs to the leading run of dots (so `.bashrc` has no
extension). -/
def splitextExtChars (basename : List Char) : List Char :=
  let afterLastDot := (basename.reverse.takeWhile (fun c => c != '.')).length
  if afterLastDot == basename.length then []      -- no dot at all
  else
    let lastDot := basename.length - afterLastDot - 1
    let firstNonDot := (basename.takeWhile (fun c => c == '.')).length
    if firstNonDot < lastDot then basename.drop lastDot else []

/-- Characters after the last `/` or `\x5c` separator. -/
def pyBasenameChars (cs : List Char) : List Char :=
  ((cs.reverse.takeWhile (fun c => c != '/' && c != '\x5c'))).reverse

/-- `os.path.splitext(path)[-1]`: extension of the basename. -/
def splitextExt (path : String) : String :=
  String.mk (splitextExtChars (pyBasenameChars path.data))

/-- `file_utils.get_file_type`: maps a path or extension string to a
`FileType`.  The `os.path.isfile` probe of the source cannot succeed for
the extension strings this code base passes in, so the path branch is
taken exactly when the string contains a path separator. -/
def get_file_type (file_path_or_ext : String) : FileType :=
  let ext :=
    if strContains file_path_or_ext '/' || strContains file_path_or_ext '\x5c' then
      pyLower (splitextExt file_path_or_ext)
    else
      if strStartsWith file_path_or_ext "." then pyLower file_path_or_ext
      else "." ++ pyLower file_path_or_ext
  if ext == ".pdf" then .PDF
  else if ext == ".docx" then .DOCX
  else if ext == ".doc" then .DOC
  else if ext == ".xls" || ext == ".xlsx" then .EXCEL
  else if ext == ".csv" then .CSV
  else if ext == ".zip" then .ZIP
  else if ext == ".txt" || ext == ".text" then .TEXT
  else if ext == ".html" || ext == ".htm" then .HTML
  else .UNSUPPORTED

/-! ## Format parsers and document ingestor (`documents_parser.py`)

The external libraries (PyMuPDF, python-docx, pandas, LibreOffice,
`zipfile`, the HTTP client and the filesystem) are collaborators; their
observable outcomes are supplied by a `ParserEnv` record.  An
`Except String α` result models a Python call that either returns or
raises. -/

/-- `ParsedContent` from `unified_tender.py`. -/
structure ParsedContent where
  preview : String
  full_text : String
deriving DecidableEq

/-- `ParsedDocumentData` from `unified_tender.py` (the fields the parser
populates). -/
structure ParsedDocumentData where
  id : String
  name : String
  type : String
  path : Option String
  url : Option String
  preview : String
  full_text : String
deriving DecidableEq

/-- One paragraph of a python-docx document: its text and whether its
style name starts with `Heading`. -/
structure DocxPara where
  text : String
  isHeading : Bool

/-- A python-docx document: paragraphs and tables (tables are rows of
cell texts). -/
structure DocxDoc where
  paragraphs : List DocxPara
  tables : List (List (List String))

/-- The observable state of a pandas dataframe the parser reads:
emptiness, `df.head().to_string()` and `df.to_string()`. -/
structure PandasDF where
  isEmpty : Bool
  headString : String
  fullString : String

/-- One extracted zip entry: its name from `namelist()` and whether the
extracted path is a regular file. -/
structure ZipEntry where
  name : String
  isFile : Bool

/-- Outcomes of every external call the parser makes. -/
structure ParserEnv where
  /-- `http_client.download_file(url, file_name)`: `none` models a falsy
  return (the source then raises `RuntimeError`). -/
  download : String → String → Option String
  /-- `os.path.exists`. -/
  fileExists : String → Bool
  /-- Opening a PDF and collecting the text of its blocks (`block[4]` of
  each qualifying tuple, page by page); an error models any exception
  from `fitz`. -/
  fitzBlocks : String → Except String (List String)
  /-- `DocxDocument(path)`: the parsed document or the opening error. -/
  docxOpen : String → Except String DocxDoc
  /-- `convert_doc_to_docx(path)`: the converted path or the conversion
  error. -/
  convertDoc : String → Except String String
  /-- `pd.read_excel` / `pd.read_csv` on the path. -/
  readTable : String → Except String PandasDF
  /-- Opening a zip archive and extracting: the entries (with their
  post-extraction `os.path.isfile` status) or the error. -/
  zipOpen : String → Except String (List ZipEntry)

/-- `DocumentsParser._handle_parsing_error`. -/
def handle_parsing_error (error_msg : String) : ParsedContent :=
  { preview := error_msg, full_text := "" }

/-- `DocumentsParser._parse_pdf`. -/
def parse_pdf (env : ParserEnv) (path : String) : ParsedContent :=
  if !env.fileExists path then handle_parsing_error "File not found"
  else
    match env.fitzBlocks path with
    | .error e => handle_parsing_error ("Error parsing PDF: " ++ e)
    | .ok text_blocks =>
        { preview := String.intercalate "\n" (text_blocks.take 5)
          full_text := String.intercalate "\n" text_blocks }

/-- Paragraph and table blocks of `DocumentsParser._parse_docx`:
non-blank paragraphs (headings wrapped in newlines), then table rows
joined with a fixed delimiter, blank cells kept as one space, rows with
no content dropped. -/
def docxBlocks (d : DocxDoc) : List String :=
  let paraBlocks := d.paragraphs.filterMap (fun p =>
    if pyStrip p.text != "" then
      some (if p.isHeading then "\n" ++ p.text ++ "\n" else p.text)
    else none)
  let tableBlocks := (d.tables.map (fun rows =>
    rows.filterMap (fun row =>
      if row.any (fun cell => pyStrip cell != "") then
        some (String.intercalate " | "
          (row.map (fun cell => if pyStrip cell != "" then pyStrip cell else " ")))
      else none))).flatten
  paraBlocks ++ tableBlocks

/-- `DocumentsParser._parse_docx`. -/
def parse_docx (env : ParserEnv) (path : String) : ParsedContent :=
  match env.docxOpen path with
  | .error e => handle_parsing_error ("Failed to open DOCX file: " ++ e)
  | .ok d =>
      let text_blocks := docxBlocks d
      { preview := String.intercalate "\n" (text_blocks.take 5)
        full_text := String.intercalate "\n" text_blocks }

/-- `DocumentsParser._parse_excel_csv`. -/
def parse_excel_csv (env : ParserEnv) (path : String) : ParsedContent :=
  match env.readTable path with
  | .error e => handle_parsing_error ("Failed to parse: " ++ e)
  | .ok df =>
      if df.isEmpty then handle_parsing_error "Empty file"
      else { preview := df.headString, full_text := df.fullString }

/-- `DocumentsParser._parse_file`: dispatch on the classified type; the
`.doc` branch converts first and turns a conversion failure into a
diagnostic; every other kind (TEXT, HTML, ZIP, UNSUPPORTED) falls into
the unsupported diagnostic. -/
def parse_file (env : ParserEnv) (path : String) (file_ext : String) : ParsedContent :=
  match get_file_type file_ext with
  | .PDF => parse_pdf env path
  | .DOCX => parse_docx env path
  | .DOC =>
      match env.convertDoc path with
      | .ok docx_path => parse_docx env docx_path
      | .error e => handle_parsing_error ("Failed to convert .doc: " ++ e)
  | .EXCEL => parse_excel_csv env path
  | .CSV => parse_excel_csv env path
  | _ => handle_parsing_error "Unsupported file type"

/-- `os.path.dirname`: everything before the last `/` (empty when there
is none). -/
def pyDirname (s : String) : String :=
  String.mk ((s.data.reverse.dropWhile (fun c => c != '/')).drop 1).reverse

/-- `os.path.join` for the relative second components at hand. -/
def pyJoin (dir name : String) : String :=
  if dir == "" then name
  else if strEndsWith dir "/" then dir ++ name
  else dir ++ "/" ++ name

/-- `os.path.splitext(path)[0]`: the path minus its extension. -/
def splitextRoot (path : String) : String :=
  String.mk (path.data.take (path.data.length - (splitextExt path).data.length))

/-- `ext[1:] if ext.startswith('.') else ext`. -/
def dropDot (ext : String) : String :=
  if strStartsWith ext "." then String.mk (ext.data.drop 1) else ext

/-- The loop of `DocumentsParser._unpack_zip` over the valid entries,
carrying the 1-based ordinal that increments only over entries actually
attempted.  `_parse_file` is total (it catches every internal failure),
so the per-entry `except` branch of the source is unreachable in the
model. -/
def unpackZipLoop (env : ParserEnv) (extractDir doc_id : String) :
    Nat → List ZipEntry → List ParsedDocumentData
  | _, [] => []
  | count, entry :: rest =>
      let full_path := pyJoin extractDir entry.name
      if !entry.isFile then unpackZipLoop env extractDir doc_id count rest
      else
        let ext := pyLower (splitextExt entry.name)
        let file_type := get_file_type ext
        if file_type == .UNSUPPORTED then unpackZipLoop env extractDir doc_id count rest
        else
          let parsed := parse_file env full_path ext
          let zip_content_id := doc_id ++ "_zip_" ++ toString count ++ "_" ++ splitextRoot entry.name
          { id := zip_content_id
            name := entry.name
            type := dropDot ext
            path := some full_path
            url := none
            preview := parsed.preview
            full_text := parsed.full_text } :: unpackZipLoop env extractDir doc_id (count + 1) rest

/-- `DocumentsParser._unpack_zip`: open and extract the archive, then
parse each non-directory, non-hidden, supported entry; an error opening
the archive yields a single error record for the whole archive. -/
def unpack_zip (env : ParserEnv) (zip_path doc_id : String) : List ParsedDocumentData :=
  let zip_extract_dir := pyJoin (pyDirname zip_path) (doc_id ++ "_extracted")
  match env.zipOpen zip_path with
  | .error e =>
      [{ id := doc_id ++ "_zip_error"
         name := String.mk (pyBasenameChars zip_path.data)
         type := "zip"
         path := some zip_path
         url := none
         preview := "Error unpacking ZIP: " ++ e
         full_text := "Failed to unpack ZIP file: " ++ e }]
  | .ok file_list =>
      let valid_files := file_list.filter
        (fun f => !strEndsWith f.name "/" && !strStartsWith f.name ".")
      unpackZipLoop env zip_extract_dir doc_id 1 valid_files

/-- One input descriptor (`{id, file, download_link}`), with `none` for a
missing key. -/
structure DocInfo where
  id : Option String
  file : Option String
  download_link : Option String

/-- `DocumentsParser._create_error_metadata`. -/
def create_error_metadata (doc : DocInfo) (error : String) : ParsedDocumentData :=
  { id := doc.id.getD "unknown"
    name := doc.file.getD "unknown"
    url := some (doc.download_link.getD "")
    type := "error"
    path := none
    preview := "Error processing file: " ++ error
    full_text := "" }

/-- The body of the `try` block of `DocumentsParser._process_document`;
an `Except.error` models an exception reaching the outer handler.  The
records the branch appends to `documents_data` are returned in append
order. -/
def process_document_inner (env : ParserEnv) (doc : DocInfo) :
    Except String (List ParsedDocumentData) :=
  let doc_id := doc.id.getD "unknown"
  match doc.file, doc.download_link with
  | some name, some url =>
      if doc_id == "" || name == "" || url == "" then
        .error "Missing required document information"
      else
        match env.download url name with
        | none => .error ("Failed to download file: " ++ url)
        | some path =>
        let ext := pyLower (splitextExt name)
        let file_type := get_file_type ext
        if file_type == .ZIP then
          let zip_contents := unpack_zip env path doc_id
          let zip_doc : ParsedDocumentData :=
            { id := doc_id
              name := name
              url := some url
              type := "zip"
              path := some path
              preview := "ZIP archive containing " ++ toString zip_contents.length ++ " files"
              full_text := "ZIP archive: " ++ name ++ " - Contains " ++
                toString zip_contents.length ++ " extractable files" }
          .ok (zip_doc :: zip_contents)
        else if file_type == .UNSUPPORTED then
          .ok [{ id := doc_id
                 name := name
                 url := some url
                 type := dropDot ext
                 path := some path
                 preview := "Unsupported file type: " ++ ext
                 full_text := "File " ++ name ++ " has unsupported format: " ++ ext }]
        else
          let parsed := parse_file env path ext
          .ok [{ id := doc_id
                 name := name
                 url := some url
                 type := dropDot ext
                 path := some path
                 preview := parsed.preview
                 full_text := parsed.full_text }]
  | _, _ => .error "Missing required document information"

/-- `DocumentsParser._process_document`: any exception in the body is
caught and turned into a single error record appended in its place. -/
def process_document (env : ParserEnv) (doc : DocInfo) : List ParsedDocumentData :=
  match process_document_inner env doc with
  | .ok recs => recs
  | .error e => [create_error_metadata doc e]

/-- `DocumentsParser._process_all_documents`: the final `documents_data`
list after processing every descriptor in order. -/
def process_all_documents (env : ParserEnv) (docs : List DocInfo) : List ParsedDocumentData :=
  (docs.map (process_document env)).flatten

/-! ## Pipeline stage handling (`tender_pipeline.py`) -/

/-- `ProcessingStage` from `unified_tender.py`. -/
inductive ProcessingStage where
  | RAW_SCRAPED | UNIFIED_MAPPED | DOCUMENTS_PARSED
  | SEMANTIC_PROCESSED | VECTOR_INDEXED | COMPLETED
deriving DecidableEq

/-- The fields of `UnifiedTenderRecord` that
`TenderProcessingPipeline._extract_semantic_data` reads or writes,
together with a `rest` bundle standing for every other field (which the
method never touches).  `σ` is the type of the semantic-extraction
result. -/
structure PipelineTender (σ ρ : Type) where
  tender_id : String
  processing_stage : ProcessingStage
  semantic_data : Option σ
  processing_errors : List String
  rest : ρ

/-- The error message `_extract_semantic_data` appends on failure. -/
def semanticFailureMsg (tender_id e : String) : String :=
  "Semantic extraction failed for " ++ tender_id ++ ": " ++ e

/-- `TenderProcessingPipeline._extract_semantic_data`: the whole `try`
body up to the two assignments is summarised by `result` (metadata
preparation, extractor construction and `extractor.process` all run
before any field is written); on success the semantic data and stage are
set, on any exception exactly one message is appended to
`processing_errors` and nothing else changes. -/
def extract_semantic_data {σ ρ : Type} (tender : PipelineTender σ ρ)
    (result : Except String σ) : PipelineTender σ ρ :=
  match result with
  | .ok semantic_data =>
      { tender with
          semantic_data := some semantic_data
          processing_stage := .SEMANTIC_PROCESSED }
  | .error e =>
      { tender with
          processing_errors :=
            tender.processing_errors ++ [semanticFailureMsg tender.tender_id e] }

/-! ## Unified tender record identity (`unified_tender.py`) -/

/-- The DNS namespace constant `uuid.NAMESPACE_DNS`. -/
def NAMESPACE_DNS : String := "6ba7b810-9dad-11d1-80b4-00c04fd430c8"

/-- The constructor arguments of `UnifiedTenderRecord` (`id` is not one:
it is `init=False`); `β` bundles every remaining constructor input. -/
structure UnifiedTenderInputs (β : Type) where
  tender_id : String
  source_system : String
  source_tender_id : String
  rest : β

/-- A constructed `UnifiedTenderRecord`, reduced to the fields relevant
to its identity; `υ` is the UUID type. -/
structure UnifiedTenderRecord (υ β : Type) where
  id : υ
  tender_id : String
  source_system : String
  source_tender_id : String
  rest : β

/-- `UnifiedTenderRecord.__post_init__`: the record id is
`uuid5(NAMESPACE_DNS, tender_id)`; `uuid5` is the (pure) UUID-v5 hash,
passed in as a parameter. -/
def mkUnifiedTenderRecord {υ β : Type} (uuid5 : String → String → υ)
    (args : UnifiedTenderInputs β) : UnifiedTenderRecord υ β :=
  { id := uuid5 NAMESPACE_DNS args.tender_id
    tender_id := args.tender_id
    source_system := args.source_system
    source_tender_id := args.source_tender_id
    rest := args.rest }

/-! ## Typing side conditions used by the merge theorems -/

/-- Is a value Python `None`? -/
def isNull : Value → Bool
  | .vnull => true
  | _ => false

/-- The confidence entry of a dict is well formed: absent or a number.
(The skeleton initialises it to `None`, on which the source's comparison
raises a `TypeError`; theorems that need the comparison to be defined
assume this.) -/
def scoreOK (d : PyDict) : Prop :=
  dget d confidence_key = none ∨ ∃ q, dget d confidence_key = some (.vnum q)

/-- The numeric confidence of a dict, `0` when absent (the source's
`get(…, 0.0)` default). -/
def confScore (d : PyDict) : ℚ :=
  match dget d confidence_key with
  | some (.vnum q) => q
  | _ => 0

/-- Is a field kind free of nested dataclasses? -/
def flatKind : FieldKind → Bool
  | .nested _ => false
  | _ => true

/-- An aggregate is well typed for a shape: list fields hold lists of
hashable atoms, mapping fields hold dicts, boolean fields hold booleans. -/
def wellTypedFor (shape : List (String × FieldKind)) (acc : PyDict) : Bool :=
  shape.all (fun p =>
    match p.2 with
    | .listOf =>
        match dget acc p.1 with
        | some (.vlist xs) => xs.all hashable
        | _ => false
    | .mapping =>
        match dget acc p.1 with
        | some (.vdict _) => true
        | _ => false
    | .boolean =>
        match dget acc p.1 with
        | some (.vbool _) => true
        | _ => false
    | _ => true)

/-! ## Helper lemmas -/

/-- The scalar branch of the inline loop equals the scalar branch of
`_accumulate_data` (the two code blocks are identical). -/
theorem inlineScalar_eq_mergeScalar (nd acc : PyDict) (k : String) (v : Value) :
    inlineMergeStep.inlineScalar nd acc k v = mergeStep.mergeScalar nd acc k v := by
  unfold inlineMergeStep.inlineScalar mergeStep.mergeScalar
  rfl

/-- Each iteration of the inline loop equals the corresponding iteration
of `_accumulate_data`. -/
theorem inlineMergeStep_eq_mergeStep (nd acc : PyDict) (k : String) (v : Value) :
    inlineMergeStep nd acc k v = mergeStep nd acc k v := by
  cases v <;> simp [inlineMergeStep, mergeStep, inlineScalar_eq_mergeScalar]

/-- The inline loop and the `_accumulate_data` loop agree on every suffix
of the fragment. -/
theorem inlineMergeAux_eq_accumulateAux (nd : PyDict) (rest : PyDict) (acc : PyDict) :
    inlineMergeAux nd rest acc = accumulateAux nd rest acc := by
  induction rest generalizing acc with
  | nil => rfl
  | cons p tl ih =>
      obtain ⟨k, v⟩ := p
      simp only [inlineMergeAux, accumulateAux, inlineMergeStep_eq_mergeStep]
      cases mergeStep nd acc k v with
      | ok a => simpa using ih a
      | error e => rfl

/-! ## Claim C9 -/

/-- C9: the inline per-key merge loop executed for each chunk inside
`_extract_from_documents` computes exactly the same resulting aggregate
(including the same raised exception, if any) as
`BaseLLMProcessor._accumulate_data(new_data, accumulated)`, for every
fragment and aggregate. -/
theorem C9_inline_merge_equals_accumulate_data (new_data accumulated : PyDict) :
    inlineChunkMerge new_data accumulated = accumulate_data new_data accumulated :=
  inlineMergeAux_eq_accumulateAux new_data new_data accumulated

/-! ## Claim C10 -/

/-- C10: the `UnifiedTenderRecord` id is `uuid5(NAMESPACE_DNS, tender_id)`
and therefore a deterministic function of `tender_id` alone: two records
constructed with the same `tender_id` and arbitrary other constructor
inputs receive the same id. -/
theorem C10_record_id_deterministic {υ β₁ β₂ : Type}
    (uuid5 : String → String → υ)
    (a : UnifiedTenderInputs β₁) (b : UnifiedTenderInputs β₂) :
    (mkUnifiedTenderRecord uuid5 a).id = uuid5 NAMESPACE_DNS a.tender_id ∧
    (a.tender_id = b.tender_id →
      (mkUnifiedTenderRecord uuid5 a).id = (mkUnifiedTenderRecord uuid5 b).id) := by
  refine ⟨rfl, fun h => ?_⟩
  simp [mkUnifiedTenderRecord, h]

/-- Witness for C10 at concrete inputs: two records that differ in every
constructor input except `tender_id` get the same id. -/
theorem C10_record_id_deterministic_witness :
    (mkUnifiedTenderRecord (fun ns s => ns ++ s)
      { tender_id := "NEN_1", source_system := "NEN", source_tender_id := "1", rest := () }).id =
    (mkUnifiedTenderRecord (fun ns s => ns ++ s)
      { tender_id := "NEN_1", source_system := "TED", source_tender_id := "2", rest := (0 : Nat) }).id :=
  (C10_record_id_deterministic (fun ns s => ns ++ s)
    { tender_id := "NEN_1", source_system := "NEN", source_tender_id := "1", rest := () }
    { tender_id := "NEN_1", source_system := "TED", source_tender_id := "2", rest := (0 : Nat) }).2 rfl

/-! ## Claim C8 -/

/-- C8: if the semantic-extraction step fails with any exception, the
tender record keeps its `processing_stage`, keeps its `semantic_data`,
gets exactly one descriptive message appended to `processing_errors`, and
every other field (the `rest` bundle and `tender_id`) is unchanged. -/
theorem C8_semantic_failure_frame {σ ρ : Type} (tender : PipelineTender σ ρ) (e : String) :
    (extract_semantic_data tender (.error e)).processing_stage = tender.processing_stage ∧
    (extract_semantic_data tender (.error e)).semantic_data = tender.semantic_data ∧
    (extract_semantic_data tender (.error e)).processing_errors =
      tender.processing_errors ++ [semanticFailureMsg tender.tender_id e] ∧
    (extract_semantic_data tender (.error e)).tender_id = tender.tender_id ∧
    (extract_semantic_data tender (.error e)).rest = tender.rest :=
  ⟨rfl, rfl, rfl, rfl, rfl⟩

/-! ## Claim C2 -/

/-- C2: the chunker computes
`budget = context_window - tokens(system_prompt) - response_tokens - tokens(template)`
and fails with the capacity error exactly when `budget ≤ 0`, independently
of the document text (so before any splitting); in particular with
`context_window = 100`, `response_tokens = 100` and a nonzero
system/template token count it always fails. -/
theorem C2_chunker_budget_check (tok : String → Nat) (m_config : ModelConfig)
    (system_prompt user_prompt_template : String) :
    (∀ full_text,
      (chunk_text_for_user_prompt tok m_config system_prompt user_prompt_template full_text
          = .error capacityError ↔
        m_config.CONTEXT_WINDOW - count_tokens system_prompt tok - m_config.RESPONSE_TOKENS -
          count_tokens user_prompt_template tok ≤ 0)) ∧
    (m_config.CONTEXT_WINDOW = 100 → m_config.RESPONSE_TOKENS = 100 →
      0 < count_tokens system_prompt tok + count_tokens user_prompt_template tok →
      ∀ full_text,
        chunk_text_for_user_prompt tok m_config system_prompt user_prompt_template full_text
          = .error capacityError) := by
  constructor
  · intro full_text
    by_cases hc : m_config.CONTEXT_WINDOW - (count_tokens system_prompt tok : Int) -
        m_config.RESPONSE_TOKENS - count_tokens user_prompt_template tok ≤ 0
    · simp [chunk_text_for_user_prompt, hc]
    · simp [chunk_text_for_user_prompt, hc]
  · intro hcw hrt hpos full_text
    have hc : m_config.CONTEXT_WINDOW - (count_tokens system_prompt tok : Int) -
        m_config.RESPONSE_TOKENS - count_tokens user_prompt_template tok ≤ 0 := by
      omega
    simp [chunk_text_for_user_prompt, hc]

/-- Witness for C2: with a length tokenizer, `context_window = 100`,
`response_tokens = 100` and a one-token system prompt, chunking fails
with the capacity error. -/
theorem C2_chunker_budget_check_witness :
    chunk_text_for_user_prompt (fun s => s.data.length)
      { MODEL := "m", CONTEXT_WINDOW := 100, RESPONSE_TOKENS := 100 } "a" "" "doc"
      = .error capacityError :=
  (C2_chunker_budget_check (fun s => s.data.length)
    { MODEL := "m", CONTEXT_WINDOW := 100, RESPONSE_TOKENS := 100 } "a" "").2
    rfl rfl (by decide) "doc"

/-- Every successful branch of `_process_document` appends at least one
record. -/
theorem process_document_inner_ok_nonempty (env : ParserEnv) (doc : DocInfo)
    (recs : List ParsedDocumentData) :
    process_document_inner env doc = .ok recs → recs ≠ [] := by
  intro h
  unfold process_document_inner at h
  cases hf : doc.file with
  | none => simp [hf] at h
  | some name =>
      cases hd : doc.download_link with
      | none => simp [hf, hd] at h
      | some url =>
          simp only [hf, hd] at h
          split at h
          · simp at h
          · cases hdl : env.download url name with
            | none => simp [hdl] at h
            | some p =>
                simp only [hdl] at h
                split at h <;>
                  [skip; split at h] <;>
                  (simp only [Except.ok.injEq] at h; subst h; simp)

/-! ## Claim C1 -/

/-- C1: processing a descriptor list never raises past the ingestor (the
embedding is a total function: every branch failure is caught and turned
into an error-kind record), every descriptor contributes at least one
`ParsedDocumentData` record, and hence the final `documents_data` count
is at least the descriptor count. -/
theorem C1_ingestor_record_count :
    (∀ (env : ParserEnv) (doc : DocInfo), 1 ≤ (process_document env doc).length) ∧
    (∀ (env : ParserEnv) (docs : List DocInfo),
      docs.length ≤ (process_all_documents env docs).length) := by
  have hone : ∀ (env : ParserEnv) (doc : DocInfo), 1 ≤ (process_document env doc).length := by
    intro env doc
    unfold process_document
    cases h : process_document_inner env doc with
    | error e => simp
    | ok recs =>
        have := process_document_inner_ok_nonempty env doc recs h
        simpa [Nat.one_le_iff_ne_zero] using this
  refine ⟨hone, fun env docs => ?_⟩
  induction docs with
  | nil => simp [process_all_documents]
  | cons d rest ih =>
      have h1 := hone env d
      simp only [process_all_documents, List.map_cons, List.flatten_cons,
        List.length_append, List.length_cons] at *
      omega

/-! ## Claim C7 -/

/-- C7: `_parse_file` always returns a `(preview, full_text)` pair (it is
a total function of the environment outcomes), and each internal failure
is converted into a `ParsedContent` whose preview is the corresponding
diagnostic string and whose `full_text` is empty: unsupported kind,
missing PDF file, PDF open/parse error, DOCX open error (directly or
after a `.doc` conversion), `.doc` conversion failure, spreadsheet/CSV
parse error, and the empty-grid case. -/
theorem C7_parse_file_error_isolation (env : ParserEnv) (path file_ext : String) :
    (get_file_type file_ext = .UNSUPPORTED ∨ get_file_type file_ext = .ZIP ∨
        get_file_type file_ext = .TEXT ∨ get_file_type file_ext = .HTML →
      parse_file env path file_ext = { preview := "Unsupported file type", full_text := "" }) ∧
    (get_file_type file_ext = .PDF → env.fileExists path = false →
      parse_file env path file_ext = { preview := "File not found", full_text := "" }) ∧
    (∀ e, get_file_type file_ext = .PDF → env.fileExists path = true →
      env.fitzBlocks path = .error e →
      parse_file env path file_ext =
        { preview := "Error parsing PDF: " ++ e, full_text := "" }) ∧
    (∀ e, get_file_type file_ext = .DOCX → env.docxOpen path = .error e →
      parse_file env path file_ext =
        { preview := "Failed to open DOCX file: " ++ e, full_text := "" }) ∧
    (∀ e, get_file_type file_ext = .DOC → env.convertDoc path = .error e →
      parse_file env path file_ext =
        { preview := "Failed to convert .doc: " ++ e, full_text := "" }) ∧
    (∀ e docx_path, get_file_type file_ext = .DOC → env.convertDoc path = .ok docx_path →
      env.docxOpen docx_path = .error e →
      parse_file env path file_ext =
        { preview := "Failed to open DOCX file: " ++ e, full_text := "" }) ∧
    (∀ e, get_file_type file_ext = .EXCEL ∨ get_file_type file_ext = .CSV →
      env.readTable path = .error e →
      parse_file env path file_ext =
        { preview := "Failed to parse: " ++ e, full_text := "" }) ∧
    (∀ df, get_file_type file_ext = .EXCEL ∨ get_file_type file_ext = .CSV →
      env.readTable path = .ok df → df.isEmpty = true →
      parse_file env path file_ext = { preview := "Empty file", full_text := "" }) := by
  refine ⟨?_, ?_, ?_, ?_, ?_, ?_, ?_, ?_⟩
  · rintro (h | h | h | h) <;>
      simp [parse_file, h, handle_parsing_error]
  · intro h hex
    simp [parse_file, h, parse_pdf, hex, handle_parsing_error]
  · intro e h hex hfitz
    simp [parse_file, h, parse_pdf, hex, hfitz, handle_parsing_error]
  · intro e h hdocx
    simp [parse_file, h, parse_docx, hdocx, handle_parsing_error]
  · intro e h hconv
    simp [parse_file, h, hconv, handle_parsing_error]
  · intro e docx_path h hconv hdocx
    simp [parse_file, h, hconv, parse_docx, hdocx, handle_parsing_error]
  · rintro e (h | h) hread <;>
      simp [parse_file, h, parse_excel_csv, hread, handle_parsing_error]
  · rintro df (h | h) hread hempty <;>
      simp [parse_file, h, parse_excel_csv, hread, hempty, handle_parsing_error]

/-- Witness for C7 at a concrete environment: an unsupported extension, a
missing PDF and an empty CSV grid all produce diagnostic previews with an
empty full text. -/
theorem C7_parse_file_error_isolation_witness :
    parse_file
      { download := fun _ _ => none
        fileExists := fun _ => false
        fitzBlocks := fun _ => .error "boom"
        docxOpen := fun _ => .error "bad"
        convertDoc := fun _ => .error "conv"
        readTable := fun _ => .ok { isEmpty := true, headString := "", fullString := "" }
        zipOpen := fun _ => .error "zip" }
      "p" ".xyz" = { preview := "Unsupported file type", full_text := "" } :=
  (C7_parse_file_error_isolation
    { download := fun _ _ => none
      fileExists := fun _ => false
      fitzBlocks := fun _ => .error "boom"
      docxOpen := fun _ => .error "bad"
      convertDoc := fun _ => .error "conv"
      readTable := fun _ => .ok { isEmpty := true, headString := "", fullString := "" }
      zipOpen := fun _ => .error "zip" }
    "p" ".xyz").1 (Or.inl rfl)

/-- Looking up the key just set. -/
theorem dget_dset_self (d : PyDict) (k : String) (v : Value) :
    dget (dset d k v) k = some v := by
  induction d with
  | nil => simp [dset, dget]
  | cons p rest ih =>
      obtain ⟨k', v'⟩ := p
      by_cases h : k' = k <;> simp [dset, dget, h, ih]

/-- Setting one key leaves every other key unchanged. -/
theorem dget_dset_ne (d : PyDict) (k k' : String) (v : Value) (h : k' ≠ k) :
    dget (dset d k v) k' = dget d k' := by
  have h2 : ¬(k = k') := fun hh => h hh.symm
  induction d with
  | nil => simp [dset, dget, h2]
  | cons p rest ih =>
      obtain ⟨k0, v0⟩ := p
      by_cases h0 : k0 = k
      · subst h0
        simp [dset, dget, h2]
      · simp [dset, dget, h0, ih]

/-- Re-setting a key to the value it already holds is a no-op. -/
theorem dset_dget_eq (d : PyDict) (k : String) (v : Value) (h : dget d k = some v) :
    dset d k v = d := by
  induction d with
  | nil => simp [dget] at h
  | cons p rest ih =>
      obtain ⟨k0, v0⟩ := p
      by_cases h0 : k0 = k
      · subst h0
        simp [dget] at h
        simp [dset, h]
      · simp [dget, h0] at h
        simp [dset, h0, ih h]

/-- Under well-formed confidence entries, `is_higher_confidence` is the
strict comparison of the two numeric scores. -/
theorem is_higher_confidence_eval (nd acc : PyDict)
    (hnd : scoreOK nd) (hacc : scoreOK acc) :
    is_higher_confidence nd acc = .ok (decide (confScore acc < confScore nd)) := by
  unfold is_higher_confidence confScore dgetD
  rcases hnd with h | ⟨q, h⟩ <;> rcases hacc with h2 | ⟨q2, h2⟩ <;>
    simp [h, h2, pyGt]

/-! ## Claim C4 (corrected) -/

/-- C4 counterexample: the claim as stated is false on the code.  First,
an empty-string existing value is not treated as absent: merging the
non-empty scalar `5` over the existing empty string leaves the empty
string in place, although the claim requires replacement.  Second, the
longer-text rule is applied only when the new value is a string: the new
number `123456` renders as a strictly longer text than the existing `5`,
yet it does not replace it. -/
theorem C4_counterexample :
    accumulate_data [("x", .vnum 5)] [("x", .vstr "")] = .ok [("x", .vstr "")] ∧
    Value.vstr "" ≠ Value.vnum 5 ∧
    accumulate_data [("x", .vnum 123456)] [("x", .vnum 5)] = .ok [("x", .vnum 5)] ∧
    (pyStr (.vnum 5)).length < (pyStr (.vnum 123456)).length ∧
    Value.vnum 5 ≠ Value.vnum 123456 := by
  refine ⟨rfl, ?_, rfl, ?_, ?_⟩
  · intro h
    exact Value.noConfusion h
  · simp [pyStr, pyRepr]
    decide
  · intro h
    have : (5 : ℚ) = 123456 := Value.vnum.inj h
    norm_num at this

/-- C4 as amended: a `None` or empty-string fragment value never changes
the aggregate; a non-empty scalar replaces the existing value exactly
when the existing value is absent or `None`, or the new value is a
string whose text is strictly longer than `str(existing)` (the length
rule does not apply to non-string scalars, and an empty-string existing
value does not count as absent), or the fragment's recorded confidence
strictly exceeds the aggregate's (both defaulting to `0` when absent and
assumed numeric when present). -/
theorem C4_scalar_merge_rule (new_data acc : PyDict) (k : String)
    (hnd : scoreOK new_data) (hacc : scoreOK acc) :
    (mergeStep new_data acc k .vnull = .ok acc) ∧
    (mergeStep new_data acc k (.vstr "") = .ok acc) ∧
    (∀ s, s ≠ "" → mergeStep new_data acc k (.vstr s) =
      .ok (if isNull (dgetD acc k .vnull) = true ∨
              (pyStr (dgetD acc k .vnull)).length < s.length ∨
              confScore acc < confScore new_data
           then dset acc k (.vstr s) else acc)) ∧
    (∀ q, mergeStep new_data acc k (.vnum q) =
      .ok (if isNull (dgetD acc k .vnull) = true ∨ confScore acc < confScore new_data
           then dset acc k (.vnum q) else acc)) := by
  have hconf := is_higher_confidence_eval new_data acc hnd hacc
  refine ⟨rfl, by simp [mergeStep], ?_, ?_⟩
  · intro s hs
    have hs' : (s == "") = false := by simpa using hs
    simp only [mergeStep, hs', Bool.false_eq_true, if_false]
    unfold mergeStep.mergeScalar
    by_cases hlen : (pyStr (dgetD acc k .vnull)).length < s.length <;>
      by_cases hcf : confScore acc < confScore new_data <;>
      cases hv : dgetD acc k .vnull <;>
      simp_all [hconf, isNull, Bind.bind, Except.bind] <;>
      simp [not_lt.mpr hcf] <;>
      simp [Nat.not_lt.mpr hlen, not_lt.mpr hcf]
  · intro q
    simp only [mergeStep]
    unfold mergeStep.mergeScalar
    by_cases hcf : confScore acc < confScore new_data <;>
      cases hv : dgetD acc k .vnull <;>
      simp_all [hconf, isNull, Bind.bind, Except.bind] <;>
      simp [not_lt.mpr hcf]

/-- Witness for C4 at concrete inputs: a fragment with confidence `1`
replaces an existing scalar recorded with no confidence. -/
theorem C4_scalar_merge_rule_witness :
    mergeStep [("x", .vstr "b"), ("extraction_confidence_score", .vnum 1)]
      [("x", .vstr "a")] "x" (.vstr "b")
      = .ok [("x", .vstr "b")] := by
  have h := (C4_scalar_merge_rule
    [("x", .vstr "b"), ("extraction_confidence_score", .vnum 1)]
    [("x", .vstr "a")] "x"
    (Or.inr ⟨1, rfl⟩) (Or.inl rfl)).2.2.1 "b" (by decide)
  rw [h]
  rfl

/-! ## Python-equality and set-membership lemmas -/

/-- Python atom equality holds exactly when both canonical keys exist and
agree. -/
theorem pyEqAtom_iff (a b : Value) :
    pyEqAtom a b = true ↔ ∃ x, atomKey a = some x ∧ atomKey b = some x := by
  unfold pyEqAtom
  cases ha : atomKey a <;> cases hb : atomKey b <;>
    (simp; try exact eq_comm)

/-- Python atom equality is symmetric. -/
theorem pyEqAtom_symm (a b : Value) : pyEqAtom a b = pyEqAtom b a := by
  unfold pyEqAtom
  cases atomKey a with
  | none => cases atomKey b <;> simp
  | some x =>
      cases atomKey b with
      | none => simp
      | some y =>
          by_cases h : x = y
          · simp [h]
          · have h2 : ¬(y = x) := fun hh => h hh.symm
            simp [h, h2]

/-- Python atom equality is transitive through a common middle value. -/
theorem pyEqAtom_trans (a b c : Value) (h1 : pyEqAtom a b = true)
    (h2 : pyEqAtom b c = true) : pyEqAtom a c = true := by
  rw [pyEqAtom_iff] at *
  obtain ⟨x, hax, hbx⟩ := h1
  obtain ⟨y, hby, hcy⟩ := h2
  exact ⟨x, hax, by rw [hcy, hbx.symm.trans hby]⟩

/-- Membership distributes over append. -/
theorem memBy_append (a : Value) (l1 l2 : List Value) :
    memBy a (l1 ++ l2) = (memBy a l1 || memBy a l2) := by
  simp [memBy, List.any_append]

/-- The deduplication walk keeps exactly the `==`-classes not already
seen. -/
theorem memBy_pySetList_go (a : Value) (l seen : List Value) :
    memBy a (pySetList.go seen l) =
      (memBy a l && !(seen.any (fun y => pyEqAtom y a))) := by
  induction l generalizing seen with
  | nil => simp [pySetList.go, memBy]
  | cons x xs ih =>
      simp only [pySetList.go]
      by_cases hseen : seen.any (fun y => pyEqAtom y x) = true
      · rw [if_pos hseen, ih]
        by_cases hax : pyEqAtom a x = true
        · have hsa : seen.any (fun y => pyEqAtom y a) = true := by
            simp only [List.any_eq_true] at hseen ⊢
            obtain ⟨y, hy, hyx⟩ := hseen
            exact ⟨y, hy, pyEqAtom_trans y x a hyx (by rw [pyEqAtom_symm]; exact hax)⟩
          simp [hsa]
        · simp only [memBy, List.any_cons]
          rw [show pyEqAtom a x = false by simpa using hax]
          simp
      · rw [if_neg hseen]
        simp only [memBy, List.any_cons] at *
        rw [ih]
        by_cases hax : pyEqAtom a x = true
        · have hsa : seen.any (fun y => pyEqAtom y a) = false := by
            rw [Bool.eq_false_iff]
            intro hcon
            simp only [List.any_eq_true] at hcon hseen
            obtain ⟨y, hy, hya⟩ := hcon
            exact hseen ⟨y, hy, pyEqAtom_trans y a x hya hax⟩
          simp [hax, hsa]
        · have hax' : pyEqAtom a x = false := by simpa using hax
          have hxa : pyEqAtom x a = false := by rw [pyEqAtom_symm]; exact hax'
          simp [hax', hxa]

/-- `list(set(xs))` preserves membership up to Python equality. -/
theorem memBy_pySetList (a : Value) (l : List Value) :
    memBy a (pySetList l) = memBy a l := by
  unfold pySetList
  rw [memBy_pySetList_go]
  simp

/-! ## Claim C5 (corrected) -/

/-- C5 counterexample: merging the empty skeleton into an aggregate is
not the identity.  A list field with a duplicate loses the duplicate
(`list(set(...))` deduplicates), and a nested-dataclass field is
shallow-updated with the nested skeleton, overwriting its populated
entries with empty values. -/
theorem C5_counterexample :
    empty_dict_from_dataclass [("tags", FieldKind.listOf)] = [("tags", Value.vlist [])] ∧
    accumulate_data [("tags", .vlist [])] [("tags", .vlist [.vstr "a", .vstr "a"])]
      = .ok [("tags", .vlist [.vstr "a"])] ∧
    Value.vlist [.vstr "a"] ≠ Value.vlist [.vstr "a", .vstr "a"] ∧
    empty_dict_from_dataclass [("m", FieldKind.nested [("t", FieldKind.scalar)])]
      = [("m", Value.vdict [("t", Value.vnull)])] ∧
    accumulate_data [("m", .vdict [("t", .vnull)])] [("m", .vdict [("t", .vstr "X")])]
      = .ok [("m", .vdict [("t", .vnull)])] ∧
    Value.vdict [("t", Value.vnull)] ≠ Value.vdict [("t", Value.vstr "X")] := by
  refine ⟨?_, rfl, by simp, ?_, rfl, by simp⟩
  · simp [empty_dict_from_dataclass, emptyValue]
  · simp [empty_dict_from_dataclass, emptyValue, List.attach, List.attachWith]

/-- The generalized skeleton-merge lemma: folding the skeleton of a flat
shape into a well-typed aggregate succeeds, leaves every non-list field
unchanged, and replaces each list field by a list with exactly the same
members.  (`nd` is arbitrary because skeleton entries never consult the
fragment: scalars are `None` and are skipped before the confidence
check.) -/
theorem skeleton_merge_aux (shape : List (String × FieldKind)) (nd : PyDict)
    (acc : PyDict)
    (hflat : shape.all (fun p => flatKind p.2) = true)
    (hnodup : (shape.map Prod.fst).Nodup)
    (hty : wellTypedFor shape acc = true) :
    ∃ acc2, accumulateAux nd (empty_dict_from_dataclass shape) acc = .ok acc2 ∧
      (∀ k, (k, FieldKind.listOf) ∉ shape → dget acc2 k = dget acc k) ∧
      (∀ k xs, (k, FieldKind.listOf) ∈ shape → dget acc k = some (.vlist xs) →
        ∃ ys, dget acc2 k = some (.vlist ys) ∧ ∀ a, memBy a ys = memBy a xs) := by
  induction shape generalizing acc with
  | nil =>
      refine ⟨acc, rfl, fun k _ => rfl, fun k xs hk _ => absurd hk (by simp)⟩
  | cons p rest ih =>
      obtain ⟨n, t⟩ := p
      simp only [List.all_cons, Bool.and_eq_true] at hflat
      simp only [List.map_cons, List.nodup_cons] at hnodup
      simp only [wellTypedFor, List.all_cons, Bool.and_eq_true] at hty
      obtain ⟨hflat1, hflatrest⟩ := hflat
      obtain ⟨hn_rest, hnoduprest⟩ := hnodup
      obtain ⟨hty1, htyrest⟩ := hty
      have htyrest' : wellTypedFor rest acc = true := htyrest
      -- analyse the head step
      have hstep : ∃ acc1, mergeStep nd acc n (emptyValue t) = .ok acc1 ∧
          ((t ≠ .listOf ∧ acc1 = acc) ∨
           (t = .listOf ∧ ∃ xs, dget acc n = some (.vlist xs) ∧ xs.all hashable = true ∧
              acc1 = dset acc n (.vlist (pySetList xs)))) := by
        cases t with
        | nested fs => simp [flatKind] at hflat1
        | scalar => exact ⟨acc, by simp [emptyValue, mergeStep], Or.inl ⟨by simp, rfl⟩⟩
        | boolean =>
            simp only at hty1
            cases hv : dget acc n with
            | none => simp [hv] at hty1
            | some w =>
                cases w with
                | vbool b =>
                    refine ⟨acc, ?_, Or.inl ⟨by simp, rfl⟩⟩
                    simp only [emptyValue, mergeStep, dgetD, hv, Option.getD_some]
                    have : (if pyTruthy (.vbool b) then Value.vbool b else .vbool false)
                        = .vbool b := by cases b <;> simp [pyTruthy]
                    rw [this, dset_dget_eq acc n _ hv]
                | vnull => simp [hv] at hty1
                | vnum q => simp [hv] at hty1
                | vstr s => simp [hv] at hty1
                | vlist xs => simp [hv] at hty1
                | vdict d => simp [hv] at hty1
        | mapping =>
            simp only at hty1
            cases hv : dget acc n with
            | none => simp [hv] at hty1
            | some w =>
                cases w with
                | vdict d =>
                    refine ⟨acc, ?_, Or.inl ⟨by simp, rfl⟩⟩
                    simp only [emptyValue, mergeStep, dgetD, hv, Option.getD_some]
                    have : pyUpdate d [] = d := rfl
                    rw [this, dset_dget_eq acc n _ hv]
                | vnull => simp [hv] at hty1
                | vnum q => simp [hv] at hty1
                | vstr s => simp [hv] at hty1
                | vlist xs => simp [hv] at hty1
                | vbool b => simp [hv] at hty1
        | listOf =>
            simp only at hty1
            cases hv : dget acc n with
            | none => simp [hv] at hty1
            | some w =>
                cases w with
                | vlist xs =>
                    have hhash : xs.all hashable = true := by simpa [hv] using hty1
                    refine ⟨dset acc n (.vlist (pySetList xs)), ?_,
                      Or.inr ⟨rfl, ⟨xs, rfl, hhash, rfl⟩⟩⟩
                    simp only [emptyValue, mergeStep, dgetD, hv, Option.getD_some,
                      List.append_nil, hhash, if_true]
                | vnull => simp [hv] at hty1
                | vnum q => simp [hv] at hty1
                | vstr s => simp [hv] at hty1
                | vbool b => simp [hv] at hty1
                | vdict d => simp [hv] at hty1
      obtain ⟨acc1, hstep1, hstep2⟩ := hstep
      -- keys other than n are unchanged by the head step
      have hother : ∀ k, k ≠ n → dget acc1 k = dget acc k := by
        intro k hk
        rcases hstep2 with ⟨_, rfl⟩ | ⟨_, xs, _, _, rfl⟩
        · rfl
        · exact dget_dset_ne acc n k _ hk
      -- typing carries over to the tail
      have htyrest1 : wellTypedFor rest acc1 = true := by
        simp only [wellTypedFor, List.all_eq_true] at htyrest' ⊢
        intro p hp
        have hpn : p.1 ≠ n := by
          intro hh
          exact hn_rest (by simpa [hh] using List.mem_map_of_mem Prod.fst hp)
        rw [hother p.1 hpn]
        exact htyrest' p hp
      obtain ⟨acc2, hrec, hcl1, hcl2⟩ := ih acc1 hflatrest hnoduprest htyrest1
      refine ⟨acc2, ?_, ?_, ?_⟩
      · simp only [empty_dict_from_dataclass, List.map_cons, accumulateAux, hstep1,
          Except.bind]
        simpa [empty_dict_from_dataclass] using hrec
      · intro k hk
        have hkrest : (k, FieldKind.listOf) ∉ rest := fun hh => hk (List.mem_cons_of_mem _ hh)
        rw [hcl1 k hkrest]
        by_cases hkn : k = n
        · subst hkn
          rcases hstep2 with ⟨_, rfl⟩ | ⟨hlist, _⟩
          · rfl
          · exact absurd (by simp [hlist] : (k, FieldKind.listOf) ∈ (k, t) :: rest) hk
        · exact hother k hkn
      · intro k xs hk hxs
        rcases List.mem_cons.mp hk with heq | hkrest
        · have hkn : k = n := congrArg Prod.fst heq
          have ht : t = FieldKind.listOf := (congrArg Prod.snd heq).symm
          subst hkn
          rcases hstep2 with ⟨hne, _⟩ | ⟨_, xs0, hxs0, _, rfl⟩
          · exact absurd ht hne
          · have hx : xs0 = xs := by
              rw [hxs0] at hxs
              exact Value.vlist.inj (Option.some.inj hxs)
            subst hx
            have hkrest2 : (k, FieldKind.listOf) ∉ rest := by
              intro hh
              exact hn_rest (by simpa using List.mem_map_of_mem Prod.fst hh)
            rw [hcl1 k hkrest2, dget_dset_self]
            exact ⟨pySetList xs0, rfl, fun a => memBy_pySetList a xs0⟩
        · have hkn : k ≠ n := by
            intro hh
            subst hh
            exact hn_rest (by simpa using List.mem_map_of_mem Prod.fst hkrest)
          have hxs1 : dget acc1 k = some (.vlist xs) := by rw [hother k hkn]; exact hxs
          exact hcl2 k xs hkrest hxs1

/-- C5 as amended: merging the all-empty skeleton fragment of a flat
shape (no nested dataclass fields) into a well-typed aggregate leaves
every non-list field unchanged and preserves each list field up to
membership (the source deduplicates list fields via `set()`, so
duplicates are dropped and order is not preserved; nested-dataclass
skeleton entries would additionally overwrite nested values and are
excluded, see the counterexample). -/
theorem C5_skeleton_merge_identity (shape : List (String × FieldKind)) (acc : PyDict)
    (hflat : shape.all (fun p => flatKind p.2) = true)
    (hnodup : (shape.map Prod.fst).Nodup)
    (hty : wellTypedFor shape acc = true) :
    ∃ acc2, accumulate_data (empty_dict_from_dataclass shape) acc = .ok acc2 ∧
      (∀ k, (k, FieldKind.listOf) ∉ shape → dget acc2 k = dget acc k) ∧
      (∀ k xs, (k, FieldKind.listOf) ∈ shape → dget acc k = some (.vlist xs) →
        ∃ ys, dget acc2 k = some (.vlist ys) ∧ ∀ a, memBy a ys = memBy a xs) :=
  skeleton_merge_aux shape (empty_dict_from_dataclass shape) acc hflat hnodup hty

/-- Witness for C5 at a concrete flat shape and aggregate: the scalar and
boolean fields stay untouched and the list field keeps its members. -/
theorem C5_skeleton_merge_identity_witness :
    ∃ acc2, accumulate_data
        (empty_dict_from_dataclass
          [("title", FieldKind.scalar), ("f", FieldKind.boolean), ("tags", FieldKind.listOf)])
        [("title", .vstr "x"), ("f", .vbool true), ("tags", .vlist [.vstr "a"])]
      = .ok acc2 ∧
      (∀ k, (k, FieldKind.listOf) ∉
          [("title", FieldKind.scalar), ("f", FieldKind.boolean), ("tags", FieldKind.listOf)] →
        dget acc2 k =
          dget [("title", .vstr "x"), ("f", .vbool true), ("tags", .vlist [.vstr "a"])] k) ∧
      (∀ k xs, (k, FieldKind.listOf) ∈
          [("title", FieldKind.scalar), ("f", FieldKind.boolean), ("tags", FieldKind.listOf)] →
        dget [("title", .vstr "x"), ("f", .vbool true), ("tags", .vlist [.vstr "a"])] k
          = some (.vlist xs) →
        ∃ ys, dget acc2 k = some (.vlist ys) ∧ ∀ a, memBy a ys = memBy a xs) :=
  C5_skeleton_merge_identity
    [("title", FieldKind.scalar), ("f", FieldKind.boolean), ("tags", FieldKind.listOf)]
    [("title", .vstr "x"), ("f", .vbool true), ("tags", .vlist [.vstr "a"])]
    rfl (by simp) rfl

/-! ## Per-key trace lemmas for the merge fold -/

/-- A successful scalar branch either keeps the aggregate or sets its own
key. -/
theorem mergeScalar_result (nd acc : PyDict) (k : String) (v : Value) (r : PyDict)
    (h : mergeStep.mergeScalar nd acc k v = .ok r) :
    r = acc ∨ ∃ w, r = dset acc k w := by
  unfold mergeStep.mergeScalar at h
  split at h
  · exact Or.inr ⟨_, (Except.ok.inj h).symm⟩
  · dsimp only at h
    split at h
    · exact Or.inr ⟨_, (Except.ok.inj h).symm⟩
    · cases hc : is_higher_confidence nd acc with
      | error e =>
          rw [hc] at h
          exact absurd h (by simp [Bind.bind, Except.bind])
      | ok b =>
          rw [hc] at h
          simp only [Bind.bind, Except.bind, Except.ok.injEq] at h
          cases b with
          | false => exact Or.inl (by simpa using h.symm)
          | true => exact Or.inr ⟨_, (by simpa using h.symm)⟩

/-- A successful merge step either leaves the aggregate unchanged or sets
exactly its own key. -/
theorem mergeStep_result (nd acc : PyDict) (k : String) (v : Value) (r : PyDict)
    (h : mergeStep nd acc k v = .ok r) :
    r = acc ∨ ∃ w, r = dset acc k w := by
  cases v with
  | vlist items =>
      simp only [mergeStep] at h
      split at h
      · split at h
        · exact Or.inr ⟨_, (Except.ok.inj h).symm⟩
        · exact absurd h (by simp)
      · exact absurd h (by simp)
  | vdict items =>
      simp only [mergeStep] at h
      split at h
      · exact Or.inr ⟨_, (Except.ok.inj h).symm⟩
      · exact Or.inr ⟨_, (Except.ok.inj h).symm⟩
      · exact absurd h (by simp)
  | vbool b =>
      simp only [mergeStep] at h
      exact Or.inr ⟨_, (Except.ok.inj h).symm⟩
  | vnull =>
      simp only [mergeStep] at h
      exact Or.inl (Except.ok.inj h).symm
  | vstr s =>
      simp only [mergeStep] at h
      split at h
      · exact Or.inl (Except.ok.inj h).symm
      · exact mergeScalar_result nd acc k _ r h
  | vnum q =>
      simp only [mergeStep] at h
      exact mergeScalar_result nd acc k _ r h

/-- A successful merge step leaves every other key unchanged. -/
theorem mergeStep_preserves (nd acc : PyDict) (k : String) (v : Value) (r : PyDict)
    (h : mergeStep nd acc k v = .ok r) (k' : String) (hk : k' ≠ k) :
    dget r k' = dget acc k' := by
  rcases mergeStep_result nd acc k v r h with rfl | ⟨w, rfl⟩
  · rfl
  · exact dget_dset_ne acc k k' w hk

/-- A successful merge fold leaves keys outside the fragment unchanged. -/
theorem accumulateAux_preserves (nd : PyDict) (items : PyDict) (acc r : PyDict)
    (h : accumulateAux nd items acc = .ok r) (k : String)
    (hk : ∀ p ∈ items, p.1 ≠ k) :
    dget r k = dget acc k := by
  induction items generalizing acc with
  | nil =>
      simp only [accumulateAux, Except.ok.injEq] at h
      rw [← h]
  | cons p tl ih =>
      obtain ⟨k0, v0⟩ := p
      simp only [accumulateAux] at h
      cases hstep : mergeStep nd acc k0 v0 with
      | error e =>
          rw [hstep] at h
          exact absurd h (by simp [Bind.bind, Except.bind])
      | ok acc1 =>
          rw [hstep] at h
          simp only [Bind.bind, Except.bind] at h
          have h1 := ih acc1 h (fun p hp => hk p (List.mem_cons_of_mem _ hp))
          rw [h1]
          exact mergeStep_preserves nd acc k0 v0 acc1 hstep k
            (Ne.symm (hk (k0, v0) (List.mem_cons_self _ _)))

/-- In a successful fold over a fragment with distinct keys, the entry
`(k, v)` is processed exactly once, on an aggregate state whose value at
`k` is still the initial one, and the fold's final value at `k` is the
value right after that step. -/
theorem accumulateAux_at_key (nd : PyDict) (items : PyDict) (acc r : PyDict)
    (h : accumulateAux nd items acc = .ok r)
    (hnodup : (items.map Prod.fst).Nodup)
    (k : String) (v : Value) (hmem : (k, v) ∈ items) :
    ∃ acc0 acc1, dget acc0 k = dget acc k ∧ mergeStep nd acc0 k v = .ok acc1 ∧
      dget r k = dget acc1 k := by
  induction items generalizing acc with
  | nil => cases hmem
  | cons p tl ih =>
      obtain ⟨k0, v0⟩ := p
      simp only [List.map_cons, List.nodup_cons] at hnodup
      obtain ⟨hk0, hnodup_tl⟩ := hnodup
      simp only [accumulateAux] at h
      cases hstep : mergeStep nd acc k0 v0 with
      | error e =>
          rw [hstep] at h
          exact absurd h (by simp [Bind.bind, Except.bind])
      | ok acc1 =>
          rw [hstep] at h
          simp only [Bind.bind, Except.bind] at h
          rcases List.mem_cons.mp hmem with heq | htl
          · have hkk : k0 = k := (congrArg Prod.fst heq).symm
            have hvv : v0 = v := (congrArg Prod.snd heq).symm
            subst hkk
            subst hvv
            refine ⟨acc, acc1, rfl, hstep, ?_⟩
            apply accumulateAux_preserves nd tl acc1 r h
            intro p hp hpk
            exact hk0 (by simpa [hpk] using List.mem_map_of_mem Prod.fst hp)
          · have hkk : k ≠ k0 := by
              intro hh
              subst hh
              exact hk0 (by simpa using List.mem_map_of_mem Prod.fst htl)
            obtain ⟨acc0, acc1', hget, hstep', hres⟩ := ih acc1 h hnodup_tl htl
            refine ⟨acc0, acc1', ?_, hstep', hres⟩
            rw [hget]
            exact mergeStep_preserves nd acc k0 v0 acc1 hstep k hkk

/-- Evaluation of a successful list-branch step at its own key. -/
theorem mergeStep_list_eval (nd acc : PyDict) (k : String) (l : List Value) (r : PyDict)
    (h : mergeStep nd acc k (.vlist l) = .ok r) :
    ∃ e, dgetD acc k (.vlist []) = .vlist e ∧ (e ++ l).all hashable = true ∧
      dget r k = some (.vlist (pySetList (e ++ l))) := by
  simp only [mergeStep] at h
  split at h
  · next e he =>
      split at h
      · next hhash =>
          refine ⟨e, he, hhash, ?_⟩
          rw [← Except.ok.inj h, dget_dset_self]
      · exact absurd h (by simp)
  · exact absurd h (by simp)

/-- Evaluation of the (always successful) boolean-branch step at its own
key. -/
theorem mergeStep_bool_eval (nd acc : PyDict) (k : String) (b : Bool) (r : PyDict)
    (h : mergeStep nd acc k (.vbool b) = .ok r) :
    dget r k = some (if pyTruthy (dgetD acc k (.vbool false))
      then dgetD acc k (.vbool false) else .vbool b) := by
  simp only [mergeStep] at h
  rw [← Except.ok.inj h, dget_dset_self]

/-- Evaluation of a successful dict-branch step at its own key. -/
theorem mergeStep_dict_eval (nd acc : PyDict) (k : String) (m : PyDict) (r : PyDict)
    (h : mergeStep nd acc k (.vdict m) = .ok r) :
    (dgetD acc k (.vdict []) = .vnull ∧ dget r k = some (.vdict m)) ∨
    (∃ d, dgetD acc k (.vdict []) = .vdict d ∧ dget r k = some (.vdict (pyUpdate d m))) := by
  simp only [mergeStep] at h
  split at h
  · next he =>
      exact Or.inl ⟨he, by rw [← Except.ok.inj h, dget_dset_self]⟩
  · next d hd =>
      exact Or.inr ⟨d, hd, by rw [← Except.ok.inj h, dget_dset_self]⟩
  · exact absurd h (by simp)

/-- A successful lookup comes from an entry of the dict. -/
theorem dget_mem (d : PyDict) (k : String) (v : Value) (h : dget d k = some v) :
    (k, v) ∈ d := by
  induction d with
  | nil => simp [dget] at h
  | cons p rest ih =>
      obtain ⟨k0, v0⟩ := p
      by_cases hk : k0 = k
      · subst hk
        simp [dget] at h
        simp [h]
      · simp [dget, hk] at h
        exact List.mem_cons_of_mem _ (ih h)

/-- Lookup in a shallow dict update: the updating dict wins on its own
keys (which are distinct, as Python dict keys are). -/
theorem dget_pyUpdate (d new : PyDict) (hnodup : (new.map Prod.fst).Nodup) (j : String) :
    dget (pyUpdate d new) j =
      match dget new j with
      | some v => some v
      | none => dget d j := by
  induction new generalizing d with
  | nil => simp [pyUpdate, dget]
  | cons p tl ih =>
      obtain ⟨k0, v0⟩ := p
      simp only [List.map_cons, List.nodup_cons] at hnodup
      obtain ⟨hk0, hnodup_tl⟩ := hnodup
      have hstep : pyUpdate d ((k0, v0) :: tl) = pyUpdate (dset d k0 v0) tl := rfl
      rw [hstep, ih (dset d k0 v0) hnodup_tl]
      by_cases hj : k0 = j
      · subst hj
        have htl : dget tl k0 = none := by
          cases hh : dget tl k0 with
          | none => rfl
          | some w =>
              exact absurd (List.mem_map_of_mem Prod.fst (dget_mem tl k0 w hh)) hk0
        rw [htl]
        simp [dget, dget_dset_self]
      · rw [dget_dset_ne d k0 j v0 (fun hh => hj hh.symm)]
        simp [dget, fun hh => hj hh]

/-- A `none` lookup means no entry carries the key. -/
theorem dget_eq_none_iff (d : PyDict) (k : String) :
    dget d k = none ↔ ∀ p ∈ d, p.1 ≠ k := by
  induction d with
  | nil => simp [dget]
  | cons p rest ih =>
      obtain ⟨k0, v0⟩ := p
      by_cases hk : k0 = k
      · subst hk
        simp [dget]
      · simp [dget, hk, ih]

/-- Keys absent from the fragment are unchanged by `_accumulate_data`. -/
theorem accumulate_none_value (f acc r : PyDict)
    (h : accumulate_data f acc = .ok r) (k : String) (hm : dget f k = none) :
    dget r k = dget acc k :=
  accumulateAux_preserves f f acc r h k ((dget_eq_none_iff f k).mp hm)

/-- The final value of a list-valued fragment key under
`_accumulate_data`. -/
theorem accumulate_list_value (f acc r : PyDict)
    (hn : (f.map Prod.fst).Nodup) (h : accumulate_data f acc = .ok r)
    (k : String) (l : List Value) (hm : dget f k = some (.vlist l)) :
    ∃ e, dgetD acc k (.vlist []) = .vlist e ∧ (e ++ l).all hashable = true ∧
      dget r k = some (.vlist (pySetList (e ++ l))) := by
  obtain ⟨acc0, acc1, hget, hstep, hres⟩ :=
    accumulateAux_at_key f f acc r h hn k _ (dget_mem f k _ hm)
  obtain ⟨e, he, hh, hr⟩ := mergeStep_list_eval f acc0 k l acc1 hstep
  refine ⟨e, ?_, hh, by rw [hres, hr]⟩
  rw [← he]
  unfold dgetD
  rw [hget]

/-- The final value of a boolean-valued fragment key under
`_accumulate_data`. -/
theorem accumulate_bool_value (f acc r : PyDict)
    (hn : (f.map Prod.fst).Nodup) (h : accumulate_data f acc = .ok r)
    (k : String) (b : Bool) (hm : dget f k = some (.vbool b)) :
    dget r k = some (if pyTruthy (dgetD acc k (.vbool false))
      then dgetD acc k (.vbool false) else .vbool b) := by
  obtain ⟨acc0, acc1, hget, hstep, hres⟩ :=
    accumulateAux_at_key f f acc r h hn k _ (dget_mem f k _ hm)
  have hr := mergeStep_bool_eval f acc0 k b acc1 hstep
  have hd : dgetD acc0 k (.vbool false) = dgetD acc k (.vbool false) := by
    unfold dgetD
    rw [hget]
  rw [hres, hr, hd]

/-- The final value of a dict-valued fragment key under
`_accumulate_data`. -/
theorem accumulate_dict_value (f acc r : PyDict)
    (hn : (f.map Prod.fst).Nodup) (h : accumulate_data f acc = .ok r)
    (k : String) (m : PyDict) (hm : dget f k = some (.vdict m)) :
    (dgetD acc k (.vdict []) = .vnull ∧ dget r k = some (.vdict m)) ∨
    (∃ d, dgetD acc k (.vdict []) = .vdict d ∧
      dget r k = some (.vdict (pyUpdate d m))) := by
  obtain ⟨acc0, acc1, hget, hstep, hres⟩ :=
    accumulateAux_at_key f f acc r h hn k _ (dget_mem f k _ hm)
  have hd : dgetD acc0 k (.vdict []) = dgetD acc k (.vdict []) := by
    unfold dgetD
    rw [hget]
  rcases mergeStep_dict_eval f acc0 k m acc1 hstep with ⟨he, hr⟩ | ⟨d, he, hr⟩
  · exact Or.inl ⟨by rw [← hd, he], by rw [hres, hr]⟩
  · exact Or.inr ⟨d, by rw [← hd, he], by rw [hres, hr]⟩

/-- The boolean combine `existing or value` is order independent over two
fragments. -/
theorem boolStep_comm (e : Value) (b1 b2 : Bool) :
    (if pyTruthy (if pyTruthy e then e else .vbool b1) = true
     then (if pyTruthy e then e else .vbool b1) else .vbool b2) =
    (if pyTruthy (if pyTruthy e then e else .vbool b2) = true
     then (if pyTruthy e then e else .vbool b2) else .vbool b1) := by
  by_cases he : pyTruthy e = true
  · simp [he]
  · simp only [he, if_false, Bool.false_eq_true]
    cases b1 <;> cases b2 <;> simp [pyTruthy]

/-- One-sided order independence: a key present in only one fragment with
a list, boolean or mapping value gets the same final value whichever
fragment is merged first. -/
theorem c6_one_sided (acc f1 f2 a1 r1 a2 r2 : PyDict)
    (hn1 : (f1.map Prod.fst).Nodup)
    (h11 : accumulate_data f1 acc = .ok a1) (h12 : accumulate_data f2 a1 = .ok r1)
    (h21 : accumulate_data f2 acc = .ok a2) (h22 : accumulate_data f1 a2 = .ok r2)
    (k : String) (v : Value) (hv1 : dget f1 k = some v) (hv2 : dget f2 k = none)
    (hkind : (∃ b, v = .vbool b) ∨ (∃ l, v = .vlist l) ∨ (∃ m, v = .vdict m)) :
    dget r1 k = dget r2 k := by
  have hr1 : dget r1 k = dget a1 k := accumulate_none_value f2 a1 r1 h12 k hv2
  have ha2 : dget a2 k = dget acc k := accumulate_none_value f2 acc a2 h21 k hv2
  rcases hkind with ⟨b, rfl⟩ | ⟨l, rfl⟩ | ⟨m, rfl⟩
  · have e1 := accumulate_bool_value f1 acc a1 hn1 h11 k b hv1
    have e2 := accumulate_bool_value f1 a2 r2 hn1 h22 k b hv1
    have hd : dgetD a2 k (.vbool false) = dgetD acc k (.vbool false) := by
      unfold dgetD
      rw [ha2]
    rw [hr1, e1, e2, hd]
  · obtain ⟨e, he, _, hval⟩ := accumulate_list_value f1 acc a1 hn1 h11 k l hv1
    obtain ⟨e', he', _, hval'⟩ := accumulate_list_value f1 a2 r2 hn1 h22 k l hv1
    have hd : dgetD a2 k (.vlist []) = dgetD acc k (.vlist []) := by
      unfold dgetD
      rw [ha2]
    have hee : e' = e := by
      rw [hd, he] at he'
      exact (Value.vlist.inj he').symm
    rw [hr1, hval, hval', hee]
  · have hd : dgetD a2 k (.vdict []) = dgetD acc k (.vdict []) := by
      unfold dgetD
      rw [ha2]
    rcases accumulate_dict_value f1 acc a1 hn1 h11 k m hv1 with ⟨he, hval⟩ | ⟨d, he, hval⟩ <;>
      rcases accumulate_dict_value f1 a2 r2 hn1 h22 k m hv1 with ⟨he', hval'⟩ | ⟨d', he', hval'⟩
    · rw [hr1, hval, hval']
    · rw [hd, he] at he'
      exact absurd he'.symm (by simp)
    · rw [hd, he] at he'
      exact absurd he' (by simp)
    · have hdd : d' = d := by
        rw [hd, he] at he'
        exact (Value.vdict.inj he').symm
      rw [hr1, hval, hval', hdd]

/-! ## Claim C6 (corrected) -/

/-- C6 counterexample: merge order is observable on mapping fields.  Two
fragments whose mapping values assign different values to the same inner
key produce different aggregates depending on the order in which they are
merged, because the shallow `dict.update` lets the later fragment
overwrite the overlapping inner key. -/
theorem C6_counterexample :
    accumulate_data [("m", .vdict [("a", .vstr "1")])] [] =
      .ok [("m", .vdict [("a", .vstr "1")])] ∧
    accumulate_data [("m", .vdict [("a", .vstr "2")])] [("m", .vdict [("a", .vstr "1")])] =
      .ok [("m", .vdict [("a", .vstr "2")])] ∧
    accumulate_data [("m", .vdict [("a", .vstr "2")])] [] =
      .ok [("m", .vdict [("a", .vstr "2")])] ∧
    accumulate_data [("m", .vdict [("a", .vstr "1")])] [("m", .vdict [("a", .vstr "2")])] =
      .ok [("m", .vdict [("a", .vstr "1")])] ∧
    ([("m", Value.vdict [("a", Value.vstr "2")])] : PyDict) ≠
      [("m", Value.vdict [("a", Value.vstr "1")])] := by
  refine ⟨rfl, rfl, rfl, rfl, by simp⟩

/-- C6 as amended: when both merge orders succeed, list-valued and
boolean-valued fields are order independent (lists up to Python-equality
membership, order and duplicates being unspecified through `set()`), a
field present in only one fragment with a list/boolean/mapping value is
order independent, and mapping-valued fields are order independent
exactly up to the overlap: if the two fragments' mappings agree on every
shared inner key, both orders give mappings with identical lookups.  The
scalar rule stays order sensitive (via the confidence state), as the
claim itself concedes. -/
theorem C6_merge_order_independence (acc f1 f2 a1 r1 a2 r2 : PyDict)
    (hn1 : (f1.map Prod.fst).Nodup) (hn2 : (f2.map Prod.fst).Nodup)
    (h11 : accumulate_data f1 acc = .ok a1) (h12 : accumulate_data f2 a1 = .ok r1)
    (h21 : accumulate_data f2 acc = .ok a2) (h22 : accumulate_data f1 a2 = .ok r2) :
    ∀ k,
      ((dget f1 k = none ∨ ∃ b, dget f1 k = some (.vbool b)) →
        (dget f2 k = none ∨ ∃ b, dget f2 k = some (.vbool b)) →
        dget r1 k = dget r2 k) ∧
      (∀ l1 l2, dget f1 k = some (.vlist l1) → dget f2 k = some (.vlist l2) →
        ∃ x1 x2, dget r1 k = some (.vlist x1) ∧ dget r2 k = some (.vlist x2) ∧
          ∀ a, memBy a x1 = memBy a x2) ∧
      (∀ v, dget f1 k = some v → dget f2 k = none →
        ((∃ b, v = .vbool b) ∨ (∃ l, v = .vlist l) ∨ (∃ m, v = .vdict m)) →
        dget r1 k = dget r2 k) ∧
      (∀ v, dget f1 k = none → dget f2 k = some v →
        ((∃ b, v = .vbool b) ∨ (∃ l, v = .vlist l) ∨ (∃ m, v = .vdict m)) →
        dget r1 k = dget r2 k) ∧
      (∀ m1 m2, dget f1 k = some (.vdict m1) → dget f2 k = some (.vdict m2) →
        (m1.map Prod.fst).Nodup → (m2.map Prod.fst).Nodup →
        (∀ j x y, dget m1 j = some x → dget m2 j = some y → x = y) →
        ∃ d1 d2, dget r1 k = some (.vdict d1) ∧ dget r2 k = some (.vdict d2) ∧
          ∀ j, dget d1 j = dget d2 j) := by
  intro k
  refine ⟨?_, ?_, ?_, ?_, ?_⟩
  · -- boolean (or absent) on both sides
    rintro (hb1 | ⟨b1, hb1⟩) (hb2 | ⟨b2, hb2⟩)
    · rw [accumulate_none_value f2 a1 r1 h12 k hb2,
        accumulate_none_value f1 acc a1 h11 k hb1,
        accumulate_none_value f1 a2 r2 h22 k hb1,
        accumulate_none_value f2 acc a2 h21 k hb2]
    · exact (c6_one_sided acc f2 f1 a2 r2 a1 r1 hn2 h21 h22 h11 h12 k _ hb2 hb1
        (Or.inl ⟨b2, rfl⟩)).symm
    · exact c6_one_sided acc f1 f2 a1 r1 a2 r2 hn1 h11 h12 h21 h22 k _ hb1 hb2
        (Or.inl ⟨b1, rfl⟩)
    · have e11 := accumulate_bool_value f1 acc a1 hn1 h11 k b1 hb1
      have e12 := accumulate_bool_value f2 a1 r1 hn2 h12 k b2 hb2
      have e21 := accumulate_bool_value f2 acc a2 hn2 h21 k b2 hb2
      have e22 := accumulate_bool_value f1 a2 r2 hn1 h22 k b1 hb1
      have hd1 : dgetD a1 k (.vbool false) =
          (if pyTruthy (dgetD acc k (.vbool false))
           then dgetD acc k (.vbool false) else .vbool b1) := by
        unfold dgetD
        rw [e11]
        rfl
      have hd2 : dgetD a2 k (.vbool false) =
          (if pyTruthy (dgetD acc k (.vbool false))
           then dgetD acc k (.vbool false) else .vbool b2) := by
        unfold dgetD
        rw [e21]
        rfl
      rw [e12, e22, hd1, hd2]
      exact congrArg some (boolStep_comm (dgetD acc k (.vbool false)) b1 b2)
  · -- list on both sides
    intro l1 l2 hl1 hl2
    obtain ⟨e, he, hh, hv11⟩ := accumulate_list_value f1 acc a1 hn1 h11 k l1 hl1
    obtain ⟨e2, he2, hh2, hv12⟩ := accumulate_list_value f2 a1 r1 hn2 h12 k l2 hl2
    obtain ⟨e', he', hh', hv21⟩ := accumulate_list_value f2 acc a2 hn2 h21 k l2 hl2
    obtain ⟨e2', he2', hh2', hv22⟩ := accumulate_list_value f1 a2 r2 hn1 h22 k l1 hl1
    have hee : e' = e := by
      rw [he] at he'
      exact (Value.vlist.inj he').symm
    have hmid1 : e2 = pySetList (e ++ l1) := by
      have : dgetD a1 k (.vlist []) = .vlist (pySetList (e ++ l1)) := by
        unfold dgetD
        rw [hv11]
        rfl
      rw [this] at he2
      exact (Value.vlist.inj he2).symm
    have hmid2 : e2' = pySetList (e ++ l2) := by
      have : dgetD a2 k (.vlist []) = .vlist (pySetList (e ++ l2)) := by
        unfold dgetD
        rw [hv21, hee]
        rfl
      rw [this] at he2'
      exact (Value.vlist.inj he2').symm
    refine ⟨_, _, hv12, hv22, ?_⟩
    intro a
    rw [hmid1, hmid2]
    simp only [memBy_pySetList, memBy_append]
    cases memBy a e <;> cases memBy a l1 <;> cases memBy a l2 <;> rfl
  · -- present only in the first fragment
    intro v hv1 hv2 hkind
    exact c6_one_sided acc f1 f2 a1 r1 a2 r2 hn1 h11 h12 h21 h22 k v hv1 hv2 hkind
  · -- present only in the second fragment
    intro v hv1 hv2 hkind
    exact (c6_one_sided acc f2 f1 a2 r2 a1 r1 hn2 h21 h22 h11 h12 k v hv2 hv1 hkind).symm
  · -- mapping on both sides, agreeing on the overlap
    intro m1 m2 hm1 hm2 hmn1 hmn2 hagree
    have second_stage : ∀ (g : PyDict) (hng : (g.map Prod.fst).Nodup)
        (mg : PyDict) (hmg : dget g k = some (.vdict mg))
        (st res D : PyDict), accumulate_data g st = .ok res →
        dget st k = some (.vdict D) →
        dget res k = some (.vdict (pyUpdate D mg)) := by
      intro g hng mg hmg st res D hrun hst
      rcases accumulate_dict_value g st res hng hrun k mg hmg with ⟨he, _⟩ | ⟨d, hd, hval⟩
      · rw [show dgetD st k (.vdict []) = .vdict D by unfold dgetD; rw [hst]; rfl] at he
        exact absurd he (by simp)
      · rw [show dgetD st k (.vdict []) = .vdict D by unfold dgetD; rw [hst]; rfl] at hd
        rw [hval, Value.vdict.inj hd]
    rcases accumulate_dict_value f1 acc a1 hn1 h11 k m1 hm1 with ⟨he1, hval1⟩ | ⟨d1, hd1, hval1⟩ <;>
      rcases accumulate_dict_value f2 acc a2 hn2 h21 k m2 hm2 with ⟨he2, hval2⟩ | ⟨d2, hd2, hval2⟩
    · -- aggregate value is None: r1 = m1 <- m2, r2 = m2 <- m1
      have hv12 := second_stage f2 hn2 m2 hm2 a1 r1 m1 h12 hval1
      have hv22 := second_stage f1 hn1 m1 hm1 a2 r2 m2 h22 hval2
      refine ⟨_, _, hv12, hv22, ?_⟩
      intro j
      rw [dget_pyUpdate m1 m2 hmn2 j, dget_pyUpdate m2 m1 hmn1 j]
      cases hx : dget m1 j <;> cases hy : dget m2 j <;> simp [hx, hy]
      exact (hagree j _ _ hx hy).symm
    · rw [hd2] at he1
      exact absurd he1 (by simp)
    · rw [hd1] at he2
      exact absurd he2 (by simp)
    · -- aggregate value is a dict d: both orders update d
      have hdd : d2 = d1 := by
        rw [hd1] at hd2
        exact (Value.vdict.inj hd2).symm
      subst hdd
      have hv12 := second_stage f2 hn2 m2 hm2 a1 r1 (pyUpdate d2 m1) h12 hval1
      have hv22 := second_stage f1 hn1 m1 hm1 a2 r2 (pyUpdate d2 m2) h22 hval2
      refine ⟨_, _, hv12, hv22, ?_⟩
      intro j
      rw [dget_pyUpdate _ m2 hmn2 j, dget_pyUpdate _ m1 hmn1 j,
        dget_pyUpdate _ m1 hmn1 j, dget_pyUpdate _ m2 hmn2 j]
      cases hx : dget m1 j <;> cases hy : dget m2 j <;> simp [hx, hy]
      exact (hagree j _ _ hx hy).symm

/-- Witness for C6 at concrete inputs: two singleton list fragments
merged in either order produce lists with the same members. -/
theorem C6_merge_order_independence_witness :
    ∃ x1 x2,
      dget [("tags", Value.vlist [.vstr "a", .vstr "b"])] "tags" = some (.vlist x1) ∧
      dget [("tags", Value.vlist [.vstr "b", .vstr "a"])] "tags" = some (.vlist x2) ∧
      ∀ a, memBy a x1 = memBy a x2 :=
  ((C6_merge_order_independence []
      [("tags", .vlist [.vstr "a"])] [("tags", .vlist [.vstr "b"])]
      [("tags", .vlist [.vstr "a"])] [("tags", .vlist [.vstr "a", .vstr "b"])]
      [("tags", .vlist [.vstr "b"])] [("tags", .vlist [.vstr "b", .vstr "a"])]
      (by simp) (by simp) rfl rfl rfl rfl) "tags").2.1 [.vstr "a"] [.vstr "b"] rfl rfl

/-! ## Claim C3 (corrected) -/

/-- The instrumented packing loop computes the same chunks as the source
loop, with the tracked running token count attached. -/
theorem chunkLoopCountsGo_fst (tok : String → Nat) (maxAvail : Int)
    (paras : List String) (chunks : List (String × Nat)) (current : String) (count : Nat) :
    (chunkLoopCountsGo tok maxAvail chunks current count paras).map Prod.fst
      = chunkLoopGo tok maxAvail (chunks.map Prod.fst) current count paras := by
  induction paras generalizing chunks current count with
  | nil =>
      simp only [chunkLoopCountsGo, chunkLoopGo]
      split <;> simp
  | cons para rest ih =>
      simp only [chunkLoopCountsGo, chunkLoopGo]
      split <;> (rw [ih]; try simp)

/-- Every chunk the instrumented loop flushes carries a running token
count within the budget, provided every single paragraph fits and the
empty string tokenizes to nothing. -/
theorem chunkLoopCountsGo_bound (tok : String → Nat) (maxAvail : Int)
    (h0 : tok "" = 0)
    (paras : List String) (chunks : List (String × Nat)) (current : String) (count : Nat)
    (hp : ∀ p ∈ paras, (tok p : Int) ≤ maxAvail)
    (hcnt : (count : Int) ≤ maxAvail)
    (hcur : current = "" → count = 0)
    (hchunks : ∀ c ∈ chunks, (c.2 : Int) ≤ maxAvail) :
    ∀ c ∈ chunkLoopCountsGo tok maxAvail chunks current count paras,
      (c.2 : Int) ≤ maxAvail := by
  induction paras generalizing chunks current count with
  | nil =>
      intro c hc
      simp only [chunkLoopCountsGo] at hc
      split at hc
      · rcases List.mem_append.mp hc with hin | hin
        · exact hchunks c hin
        · simp only [List.mem_singleton] at hin
          rw [hin]
          exact hcnt
      · exact hchunks c hc
  | cons para rest ih =>
      intro c hc
      simp only [chunkLoopCountsGo] at hc
      split at hc
      · next hcond =>
          refine ih (chunks ++ [(pyStrip current, count)]) para (tok para)
            (fun p hp2 => hp p (List.mem_cons_of_mem _ hp2))
            (hp para (List.mem_cons_self _ _))
            (fun hpe => by rw [hpe, h0]) ?_ c hc
          intro c2 hc2
          rcases List.mem_append.mp hc2 with hin | hin
          · exact hchunks c2 hin
          · simp only [List.mem_singleton] at hin
            rw [hin]
            exact hcnt
      · next hcond =>
          have hne : current ++ "\n\n" ++ para ≠ "" := by
            intro hh
            have h2 := congrArg String.length hh
            rw [String.length_append, String.length_append] at h2
            have e1 : ("\n\n" : String).length = 2 := by decide
            have e2 : ("" : String).length = 0 := by decide
            omega
          have hcount : ((count + tok para : Nat) : Int) ≤ maxAvail := by
            rcases Bool.and_eq_false_iff.mp (Bool.not_eq_true _ |>.mp hcond) with hlt | hcu
            · have : ¬(maxAvail < ((count + tok para : Nat) : Int)) := by
                simpa using hlt
              omega
            · have hce : current = "" := by
                simpa using hcu
              have := hcur hce
              have hpa := hp para (List.mem_cons_self _ _)
              omega
          exact ih chunks (current ++ "\n\n" ++ para) (count + tok para)
            (fun p hp2 => hp p (List.mem_cons_of_mem _ hp2))
            hcount (fun hh => absurd hh hne) hchunks c hc

/-- C3 counterexample: with a positive budget of 10 and a single
paragraph of 20 tokens (one token per character), the chunker returns
that paragraph as a chunk whose token count exceeds the budget, because
an oversized paragraph is emitted unsplit. -/
theorem C3_counterexample :
    chunk_text_for_user_prompt (fun s => s.data.length)
      { MODEL := "m", CONTEXT_WINDOW := 10, RESPONSE_TOKENS := 0 } "" ""
      "abcdefghijklmnopqrst" = .ok ["abcdefghijklmnopqrst"] ∧
    (0 : Int) < 10 ∧
    (10 : Int) < (("abcdefghijklmnopqrst".data.length : Nat) : Int) :=
  ⟨rfl, by decide, by decide⟩

/-- C3 as amended: with a positive budget, provided every individual
paragraph's token count fits within the budget and the tokenizer assigns
zero tokens to the empty string, the chunker succeeds and every chunk's
running token count (the tracked sum of its paragraphs' token counts,
which is what the source compares against the budget — not a re-count of
the rejoined chunk text) stays within the budget.  A single paragraph
exceeding the budget falsifies the original claim (see the
counterexample). -/
theorem C3_chunk_token_bound (tok : String → Nat) (m_config : ModelConfig)
    (system_prompt user_prompt_template full_text : String)
    (h0 : tok "" = 0)
    (hpos : 0 < m_config.CONTEXT_WINDOW - count_tokens system_prompt tok -
      m_config.RESPONSE_TOKENS - count_tokens user_prompt_template tok)
    (hfit : ∀ p ∈ splitParagraphs full_text,
      (tok p : Int) ≤ m_config.CONTEXT_WINDOW - count_tokens system_prompt tok -
        m_config.RESPONSE_TOKENS - count_tokens user_prompt_template tok) :
    chunk_text_for_user_prompt tok m_config system_prompt user_prompt_template full_text
      = .ok ((chunkLoopCountsGo tok
          (m_config.CONTEXT_WINDOW - count_tokens system_prompt tok -
            m_config.RESPONSE_TOKENS - count_tokens user_prompt_template tok)
          [] "" 0 (splitParagraphs full_text)).map Prod.fst) ∧
    ∀ c ∈ chunkLoopCountsGo tok
        (m_config.CONTEXT_WINDOW - count_tokens system_prompt tok -
          m_config.RESPONSE_TOKENS - count_tokens user_prompt_template tok)
        [] "" 0 (splitParagraphs full_text),
      (c.2 : Int) ≤ m_config.CONTEXT_WINDOW - count_tokens system_prompt tok -
        m_config.RESPONSE_TOKENS - count_tokens user_prompt_template tok := by
  constructor
  · have hc : ¬(m_config.CONTEXT_WINDOW - (count_tokens system_prompt tok : Int) -
        m_config.RESPONSE_TOKENS - count_tokens user_prompt_template tok ≤ 0) := by
      omega
    simp only [chunk_text_for_user_prompt, hc, if_false]
    rw [chunkLoopCountsGo_fst]
    rfl
  · exact chunkLoopCountsGo_bound tok _ h0 (splitParagraphs full_text) [] "" 0
      hfit (by omega) (fun _ => rfl) (by simp)

/-- Witness for C3 at a concrete document of two small paragraphs within
a budget of 10. -/
theorem C3_chunk_token_bound_witness :
    chunk_text_for_user_prompt (fun s => s.data.length)
      { MODEL := "m", CONTEXT_WINDOW := 10, RESPONSE_TOKENS := 0 } "" "" "ab\n\ncd"
      = .ok ((chunkLoopCountsGo (fun s => s.data.length) 10 [] "" 0
          (splitParagraphs "ab\n\ncd")).map Prod.fst) ∧
    ∀ c ∈ chunkLoopCountsGo (fun s => s.data.length) 10 [] "" 0
        (splitParagraphs "ab\n\ncd"), (c.2 : Int) ≤ 10 := by
  have h := C3_chunk_token_bound (fun s => s.data.length)
    { MODEL := "m", CONTEXT_WINDOW := 10, RESPONSE_TOKENS := 0 } "" "" "ab\n\ncd"
    rfl (by decide) (by decide)
  exact h
